import Mathlib

/-!
Shallow embedding of the AVL-tree container of the SCL library
(src/include/AVLTree.h, src/source/AVLTree.cpp, src/include/Base.h),
together with theorems settling the claims about it.

Modelling conventions:
* payloads (`PSortablePackage`, pointers to caller-supplied objects with a
  total order) are modelled as values of a linearly ordered type `V`;
* a null child pointer is `none`;
* `int` and `long` fields are modelled as `Int` (no arithmetic in the source
  comes near the width of the machine types on the inputs considered here),
  `size_t` arithmetic in `operator[]` is modelled exactly, modulo `2 ^ 64`;
* in-place pointer mutation is modelled functionally: the explicit
  path stacks of `insert` and `erase` become lists of (node, direction)
  pairs, and writing through a stacked pointer becomes rebuilding the
  path on the way back up (`reassemble` below);
* behaviour that is undefined in the C++ source (dereferencing a null or
  past-the-end pointer) is modelled as the `none` result of an
  `Option`-valued function;
* the comparison `current->data < toRemove` in `CAVLTree::erase`
  (AVLTree.cpp line 458) compares the raw pointers, not the pointed-to
  payloads; addresses are not representable here, so each such comparison
  result is taken from an oracle `addr : Nat → Bool` indexed by the descent
  step, and theorems quantify over all oracles.
-/

namespace SCL

/-- The node type of the AVL tree, `SAVLNode` in the source: a balance
factor (`int balance`), the two child pointers (`PAVLNode nodes[2]`,
indexed here by `Bool`, `false` for index 0), the payload pointer
(`PSortablePackage data`) and the subtree node counter
(`long _nodesbelow`). -/
inductive SAVLNode (V : Type) : Type where
  | mk : Int → Option (SAVLNode V) → Option (SAVLNode V) → V → Int → SAVLNode V

variable {V : Type}

/-- Field accessor for `balance`. -/
def SAVLNode.balance : SAVLNode V → Int
  | .mk b _ _ _ _ => b

/-- Field accessor for `nodes[dir]` (`false` is `nodes[0]`). -/
def SAVLNode.nodes : SAVLNode V → Bool → Option (SAVLNode V)
  | .mk _ c0 _ _ _, false => c0
  | .mk _ _ c1 _ _, true => c1

/-- Field accessor for `data`. -/
def SAVLNode.data : SAVLNode V → V
  | .mk _ _ _ d _ => d

/-- Field accessor for `_nodesbelow`. -/
def SAVLNode.nodesbelow : SAVLNode V → Int
  | .mk _ _ _ _ nb => nb

/-- Assignment `balance = b`. -/
def SAVLNode.setBal : SAVLNode V → Int → SAVLNode V
  | .mk _ c0 c1 d nb, b => .mk b c0 c1 d nb

/-- Assignment `nodes[dir] = c`. -/
def SAVLNode.setN : SAVLNode V → Bool → Option (SAVLNode V) → SAVLNode V
  | .mk b _ c1 d nb, false, c => .mk b c c1 d nb
  | .mk b c0 _ d nb, true, c => .mk b c0 c d nb

/-- Assignment `data = d`. -/
def SAVLNode.setData : SAVLNode V → V → SAVLNode V
  | .mk b c0 c1 _ nb, d => .mk b c0 c1 d nb

/-- Assignment `_nodesbelow = nb`. -/
def SAVLNode.setNb : SAVLNode V → Int → SAVLNode V
  | .mk b c0 c1 d _, nb => .mk b c0 c1 d nb

/-- The constructor `SAVLNode(PSortablePackage)`: zero balance, no
children, `_nodesbelow = 1`. -/
def SAVLNode.newNode (d : V) : SAVLNode V := .mk 0 none none d 1

/-- Height of a node's subtree (1 for a node with no children); not a
field of the source node, used to state the AVL invariant. -/
def SAVLNode.height : SAVLNode V → Nat
  | .mk _ c0 c1 _ _ =>
      1 + max (match c0 with | none => 0 | some n => n.height)
              (match c1 with | none => 0 | some n => n.height)

/-- Height of an optional subtree, an absent subtree having height 0. -/
def oheight : Option (SAVLNode V) → Nat
  | none => 0
  | some n => n.height

/-- Actual number of nodes in a node's subtree (independent of the
`_nodesbelow` fields). -/
def SAVLNode.size : SAVLNode V → Nat
  | .mk _ c0 c1 _ _ =>
      1 + (match c0 with | none => 0 | some n => n.size)
        + (match c1 with | none => 0 | some n => n.size)

/-- Number of nodes in an optional subtree. -/
def osize : Option (SAVLNode V) → Nat
  | none => 0
  | some n => n.size

@[simp] theorem SAVLNode.balance_mk (b : Int) (c0 c1 : Option (SAVLNode V)) (d : V) (nb : Int) :
    (SAVLNode.mk b c0 c1 d nb).balance = b := rfl

@[simp] theorem SAVLNode.nodes_mk_false (b : Int) (c0 c1 : Option (SAVLNode V)) (d : V) (nb : Int) :
    (SAVLNode.mk b c0 c1 d nb).nodes false = c0 := rfl

@[simp] theorem SAVLNode.nodes_mk_true (b : Int) (c0 c1 : Option (SAVLNode V)) (d : V) (nb : Int) :
    (SAVLNode.mk b c0 c1 d nb).nodes true = c1 := rfl

@[simp] theorem SAVLNode.data_mk (b : Int) (c0 c1 : Option (SAVLNode V)) (d : V) (nb : Int) :
    (SAVLNode.mk b c0 c1 d nb).data = d := rfl

@[simp] theorem SAVLNode.nodesbelow_mk (b : Int) (c0 c1 : Option (SAVLNode V)) (d : V) (nb : Int) :
    (SAVLNode.mk b c0 c1 d nb).nodesbelow = nb := rfl

@[simp] theorem SAVLNode.setBal_mk (b b' : Int) (c0 c1 : Option (SAVLNode V)) (d : V) (nb : Int) :
    (SAVLNode.mk b c0 c1 d nb).setBal b' = .mk b' c0 c1 d nb := rfl

@[simp] theorem SAVLNode.setN_mk_false (b : Int) (c0 c1 c : Option (SAVLNode V)) (d : V) (nb : Int) :
    (SAVLNode.mk b c0 c1 d nb).setN false c = .mk b c c1 d nb := rfl

@[simp] theorem SAVLNode.setN_mk_true (b : Int) (c0 c1 c : Option (SAVLNode V)) (d : V) (nb : Int) :
    (SAVLNode.mk b c0 c1 d nb).setN true c = .mk b c0 c d nb := rfl

@[simp] theorem SAVLNode.setData_mk (b : Int) (c0 c1 : Option (SAVLNode V)) (d d' : V) (nb : Int) :
    (SAVLNode.mk b c0 c1 d nb).setData d' = .mk b c0 c1 d' nb := rfl

@[simp] theorem SAVLNode.setNb_mk (b : Int) (c0 c1 : Option (SAVLNode V)) (d : V) (nb nb' : Int) :
    (SAVLNode.mk b c0 c1 d nb).setNb nb' = .mk b c0 c1 d nb' := rfl

@[simp] theorem SAVLNode.height_mk (b : Int) (c0 c1 : Option (SAVLNode V)) (d : V) (nb : Int) :
    (SAVLNode.mk b c0 c1 d nb).height = 1 + max (oheight c0) (oheight c1) := by
  cases c0 <;> cases c1 <;> rfl

@[simp] theorem SAVLNode.size_mk (b : Int) (c0 c1 : Option (SAVLNode V)) (d : V) (nb : Int) :
    (SAVLNode.mk b c0 c1 d nb).size = 1 + osize c0 + osize c1 := by
  cases c0 <;> cases c1 <;> rfl

@[simp] theorem oheight_none : oheight (V := V) none = 0 := rfl

@[simp] theorem oheight_some (n : SAVLNode V) : oheight (some n) = n.height := rfl

@[simp] theorem osize_none : osize (V := V) none = 0 := rfl

@[simp] theorem osize_some (n : SAVLNode V) : osize (some n) = n.size := rfl

/-!  Rotation primitives (`SAVLNode::rotateSingle`, `SAVLNode::rotateDouble`)
and balance bookkeeping (`SAVLNode::adjustBalance`, `SAVLNode::insertBalance`,
`SAVLNode::removeBalance`), AVLTree.cpp lines 108-229.  A `none` result
models the null dereference the source performs when the child it
unconditionally follows is absent. -/

/-- Source function `SAVLNode::rotateSingle(int dir)` (AVLTree.cpp lines 217-229): promotes
`nodes[!dir]` to subtree root.  Before relinking, the source adjusts the
`_nodesbelow` counters: it subtracts the promoted child's counter from the
node, and adds the counter of the node's `dir` child (when present) to the
promoted child.  Balance factors are not touched. -/
def SAVLNode.rotateSingle (t : SAVLNode V) (dir : Bool) : Option (SAVLNode V) :=
  match t.nodes !dir with
  | none => none
  | some save =>
      let nb1 := t.nodesbelow - save.nodesbelow
      let saveNb :=
        match t.nodes dir with
        | none => save.nodesbelow
        | some c => save.nodesbelow + c.nodesbelow
      let t1 := (t.setNb nb1).setN (!dir) (save.nodes dir)
      some ((save.setNb saveNb).setN dir (some t1))

/-- Source function `SAVLNode::rotateDouble(int dir)` (AVLTree.cpp lines 198-211): the
two-step relinking promoting `nodes[!dir]->nodes[dir]`.  Neither balance
factors nor `_nodesbelow` counters are touched. -/
def SAVLNode.rotateDouble (t : SAVLNode V) (dir : Bool) : Option (SAVLNode V) :=
  match t.nodes !dir with
  | none => none
  | some m =>
      match m.nodes dir with
      | none => none
      | some save =>
          let m1 := m.setN dir (save.nodes !dir)
          let save1 := save.setN (!dir) (some m1)
          let t1 := t.setN (!dir) (save1.nodes dir)
          some (save1.setN dir (some t1))

/-- Source function `SAVLNode::adjustBalance(int dir, int bal)` (AVLTree.cpp lines 108-128):
rewrites the balance factors of the node, of `n = nodes[dir]` and of
`nn = n->nodes[!dir]` according to `nn->balance`. -/
def SAVLNode.adjustBalance (t : SAVLNode V) (dir : Bool) (bal : Int) : Option (SAVLNode V) :=
  match t.nodes dir with
  | none => none
  | some n =>
      match n.nodes !dir with
      | none => none
      | some nn =>
          let p : Int × Int :=
            if nn.balance = 0 then (0, 0)
            else if nn.balance = bal then (-bal, 0)
            else (0, bal)
          let nn1 := nn.setBal 0
          let n1 := (n.setBal p.2).setN (!dir) (some nn1)
          some ((t.setBal p.1).setN dir (some n1))

/-- Source function `SAVLNode::insertBalance(int dir)` (AVLTree.cpp lines 146-165): picks
the single or double rotation restoring balance after an insertion grew
the `dir` subtree. -/
def SAVLNode.insertBalance (t : SAVLNode V) (dir : Bool) : Option (SAVLNode V) :=
  match t.nodes dir with
  | none => none
  | some n =>
      let bal : Int := if dir then 1 else -1
      if n.balance = bal then
        let n1 := n.setBal 0
        let t1 := (t.setBal 0).setN dir (some n1)
        t1.rotateSingle (!dir)
      else
        (t.adjustBalance dir bal).bind fun t1 => t1.rotateDouble (!dir)

/-- Source function `SAVLNode::removeBalance(int dir, bool &done)` (AVLTree.cpp lines
167-192): picks the rotation after a deletion shrank the `dir` subtree;
the returned flag is the `done` reference (set only by the third,
"other child balanced" case). -/
def SAVLNode.removeBalance (t : SAVLNode V) (dir : Bool) : Option (SAVLNode V × Bool) :=
  match t.nodes !dir with
  | none => none
  | some n =>
      let bal : Int := if dir then 1 else -1
      if n.balance = -bal then
        let n1 := n.setBal 0
        let t1 := (t.setBal 0).setN (!dir) (some n1)
        (t1.rotateSingle dir).map fun r => (r, false)
      else if n.balance = bal then
        ((t.adjustBalance (!dir) (-bal)).bind fun t1 => t1.rotateDouble dir).map
          fun r => (r, false)
      else
        let n1 := n.setBal bal
        let t1 := (t.setBal (-bal)).setN (!dir) (some n1)
        (t1.rotateSingle dir).map fun r => (r, true)

/-!  The tree class `CAVLTree` (AVLTree.h lines 53-70) together with the
count-keeping members it inherits from `CContainer` (Base.h lines 88-116):
`root_`, `lPackageCount`, `bOwnsPackages`, `allowDuplicates_`. -/

/-- The tree: `root_` (AVLTree.h line 57), the inherited package counter
`lPackageCount` (an `unsigned long`, only ever incremented by the tree
code), `bOwnsPackages` and `allowDuplicates_`. -/
structure CAVLTree (V : Type) where
  root : Option (SAVLNode V)
  lPackageCount : Nat
  bOwnsPackages : Bool
  allowDuplicates : Bool

/-- The constructor `CAVLTree(bool od, bool ad)` (AVLTree.cpp lines
245-249): empty root, zero count, ownership and duplicate flags stored. -/
def CAVLTree.new (od ad : Bool) : CAVLTree V :=
  { root := none, lPackageCount := 0, bOwnsPackages := od, allowDuplicates := ad }

/-- Rebuilding the unprocessed tail of a path stack: each stacked node
aliases the real tree node, so after the walk-back loop breaks, the nodes
above the break point keep their fields and their `nodes[dir]` pointer
ends at the (already updated) subtree below.  The list is deepest-first. -/
def reassemble : List (SAVLNode V × Bool) → SAVLNode V → SAVLNode V
  | [], sub => sub
  | (n, dir) :: rest, sub => reassemble rest (n.setN dir (some sub))

/-- The descent loop of `CAVLTree::insert` (AVLTree.cpp lines 380-391):
starting at the root, push `(current, dir)` with
`dir = (*(current->data)) < (*toInsert)` and follow `nodes[dir]` until the
slot is null.  Returns the pushed stack, shallowest first. -/
def insertDescend [LinearOrder V] (v : V) : SAVLNode V → List (SAVLNode V × Bool)
  | .mk b c0 c1 d nb =>
      if d < v then
        match c1 with
        | none => [(.mk b c0 c1 d nb, true)]
        | some c => (.mk b c0 c1 d nb, true) :: insertDescend v c
      else
        match c0 with
        | none => [(.mk b c0 c1 d nb, false)]
        | some c => (.mk b c0 c1 d nb, false) :: insertDescend v c

/-- The walk-back loop of `CAVLTree::insert` (AVLTree.cpp lines 403-425),
processing the recorded path deepest-first with the freshly updated
subtree carried along: update the balance factor by the direction taken,
increment `_nodesbelow`, stop when the balance reaches 0, rebalance via
`insertBalance` (reattaching to the parent) and stop when it leaves
[-1, 1], otherwise keep walking. -/
def walkBack : List (SAVLNode V × Bool) → SAVLNode V → Option (SAVLNode V)
  | [], sub => some sub
  | (n, dir) :: rest, sub =>
      let n0 := n.setN dir (some sub)
      let n1 := (n0.setBal (n0.balance + if dir then 1 else -1)).setNb (n0.nodesbelow + 1)
      if n1.balance = 0 then some (reassemble rest n1)
      else if 1 < n1.balance.natAbs then
        (n1.insertBalance dir).map fun r => reassemble rest r
      else walkBack rest n1

/-- Source function `CAVLTree::insert` (AVLTree.cpp lines 365-430).  Empty tree: a new
node becomes the root.  Otherwise: descend recording the path, attach a
new node at the null slot, apply the extra `current->_nodesbelow++` of
line 399 to the parent of the new node, then run the walk-back loop.
`incPackageCount()` runs on every completed call and the function returns
true (allocation is modelled as always succeeding; the source's
`return false` needs `new` to yield null). -/
def insert [LinearOrder V] (t : CAVLTree V) (v : V) : Option (CAVLTree V × Bool) :=
  match t.root with
  | none =>
      some ({ t with root := some (SAVLNode.newNode v),
                     lPackageCount := t.lPackageCount + 1 }, true)
  | some r =>
      match (insertDescend v r).reverse with
      | [] => none
      | (deepest, dir) :: rest =>
          (walkBack ((deepest.setNb (deepest.nodesbelow + 1), dir) :: rest)
              (SAVLNode.newNode v)).map
            fun r1 => ({ t with root := some r1,
                                lPackageCount := t.lPackageCount + 1 }, true)

/-- The search loop of `CAVLTree::erase` (AVLTree.cpp lines 447-462):
stop with the current node when its payload compares equal to the target;
otherwise push `(current, dir)` where `dir` is the result of the POINTER
comparison `current->data < toRemove` — supplied by the oracle `addr`,
indexed by descent step `k` — and follow `nodes[dir]`, reporting not-found
at a null slot.  Returns the pushed stack (shallowest first) and the found
node, if any. -/
def eraseFind [LinearOrder V] (addr : Nat → Bool) (v : V) :
    SAVLNode V → Nat → List (SAVLNode V × Bool) × Option (SAVLNode V)
  | .mk b c0 c1 d nb, k =>
      if d = v then ([], some (.mk b c0 c1 d nb))
      else if addr k then
        match c1 with
        | none => ([(.mk b c0 c1 d nb, true)], none)
        | some c =>
            let r := eraseFind addr v c (k + 1)
            ((.mk b c0 c1 d nb, true) :: r.1, r.2)
      else
        match c0 with
        | none => ([(.mk b c0 c1 d nb, false)], none)
        | some c =>
            let r := eraseFind addr v c (k + 1)
            ((.mk b c0 c1 d nb, false) :: r.1, r.2)

/-- The in-order-successor descent of `CAVLTree::erase` (AVLTree.cpp lines
488-500), applied to the found node's right child: push `(node, 0)` while
a left child exists.  Returns the pushed stack (shallowest first) and the
successor (the leftmost node), which is itself never pushed. -/
def heirDescend : SAVLNode V → List (SAVLNode V × Bool) × SAVLNode V
  | .mk b c0 c1 d nb =>
      match c0 with
      | none => ([], .mk b c0 c1 d nb)
      | some l =>
          let r := heirDescend l
          ((.mk b c0 c1 d nb, false) :: r.1, r.2)

/-- The walk-back loop of `CAVLTree::erase` (AVLTree.cpp lines 513-534),
processing the recorded path deepest-first with the replacement subtree
(possibly absent) carried along: update the balance by the direction
taken, stop when it reaches plus or minus 1, rebalance via `removeBalance`
when it leaves [-1, 1] — continuing upward unless the returned `done` flag
stops the loop — and keep walking when it reaches 0.  `_nodesbelow` is
never touched on this path. -/
def eraseWalkBack : List (SAVLNode V × Bool) → Option (SAVLNode V) → Option (Option (SAVLNode V))
  | [], sub => some sub
  | (n, dir) :: rest, sub =>
      let n0 := n.setN dir sub
      let n1 := n0.setBal (n0.balance + if dir then -1 else 1)
      if n1.balance.natAbs = 1 then some (some (reassemble rest n1))
      else if 1 < n1.balance.natAbs then
        match n1.removeBalance dir with
        | none => none
        | some (r, done) =>
            if done then some (some (reassemble rest r)) else eraseWalkBack rest (some r)
      else eraseWalkBack rest (some n1)

/-- Source function `CAVLTree::erase` (AVLTree.cpp lines 436-539).  On an empty tree the
`if (root_)` block is skipped entirely, yet `incPackageCount()` still runs
and the function returns TRUE.  Otherwise search for the node (pointer
comparisons from the `addr` oracle); not-found returns false with the tree
untouched.  A found node with an absent child is replaced in its parent by
its other child; a found node with two children takes its in-order
successor's payload and the successor's position is unlinked, with the
path stack extended through the successor descent.  The walk-back loop
then rebalances; `incPackageCount()` — not `dec` — runs and the call
returns true. -/
def erase [LinearOrder V] (addr : Nat → Bool) (t : CAVLTree V) (v : V) :
    Option (CAVLTree V × Bool) :=
  match t.root with
  | none => some ({ t with lPackageCount := t.lPackageCount + 1 }, true)
  | some r =>
      match eraseFind addr v r 0 with
      | (_, none) => some (t, false)
      | (path, some f) =>
          let finish : List (SAVLNode V × Bool) → Option (SAVLNode V) →
              Option (CAVLTree V × Bool) := fun ctxs sub =>
            (eraseWalkBack ctxs.reverse sub).map
              fun newRoot => ({ t with root := newRoot,
                                       lPackageCount := t.lPackageCount + 1 }, true)
          match f.nodes false, f.nodes true with
          | none, fc1 => finish path fc1
          | some fc0, none => finish path (some fc0)
          | some _, some fc1 =>
              let hp := heirDescend fc1
              finish (path ++ (f.setData hp.2.data, true) :: hp.1) (hp.2.nodes true)

/-- Conversion of a signed value to `size_t` (modulo `2 ^ 64`). -/
def toSizeT (i : Int) : Nat := (i % (2 ^ 64 : Int)).toNat

/-- Subtraction on `size_t` of a signed quantity, wrapping modulo `2 ^ 64`. -/
def sizeTSub (a : Nat) (b : Int) : Nat := toSizeT ((a : Int) - b)

/-- Outcome of `CAVLTree::operator[]`: the out-of-bounds error
`ERROR("SCL", 0x1000)`, a returned payload pointer (possibly null), or
undefined behaviour (dereference of a null or past-the-end pointer). -/
inductive AtOutcome (V : Type) where
  | outOfBounds : AtOutcome V
  | result : Option V → AtOutcome V
  | undefined : AtOutcome V

/-- The descent loop of `CAVLTree::operator[]` (AVLTree.cpp lines
288-306).  When the sought index is below the current one the code steps
into `nodes[0]` — without a null check — decrements `currentIndex` and
subtracts the new node's right-subtree counter.  When the sought index is
ABOVE the current one the code executes `current = current->nodes[1];
current++;` — pointer arithmetic moving `current` past the node object —
and every later read through `current` is undefined behaviour. -/
def atLoop : SAVLNode V → Nat → Nat → AtOutcome V
  | .mk _ c0 _ d _, ci, idx =>
      if ci = idx then .result (some d)
      else if idx < ci then
        match c0 with
        | none => .undefined
        | some l =>
            let ci1 := sizeTSub ci 1
            let ci2 :=
              match l.nodes true with
              | none => ci1
              | some r1 => sizeTSub ci1 r1.nodesbelow
            atLoop l ci2 idx
      else .undefined

/-- Source member `CAVLTree::operator[]` (AVLTree.cpp lines 265-310): bounds test against
`size()` (the package counter), the trivial size-0 and size-1 shortcuts,
then the descent loop starting from the root with
`currentIndex = root->_nodesbelow - 1 - (right subtree counter)`. -/
def opIndex (t : CAVLTree V) (index : Nat) : AtOutcome V :=
  if t.lPackageCount ≤ index then .outOfBounds
  else if t.lPackageCount = 0 then .result none
  else if t.lPackageCount = 1 then
    match t.root with
    | none => .undefined
    | some r => .result (some r.data)
  else
    match t.root with
    | none => .undefined
    | some r =>
        let ci0 := toSizeT (r.nodesbelow - 1)
        let ci :=
          match r.nodes true with
          | none => ci0
          | some r1 => sizeTSub ci0 r1.nodesbelow
        atLoop r ci index

/-- Source function `CAVLTree::clear` (AVLTree.cpp lines 316-358): an iterative post-order
traversal frees every node (and, when `bOwnsPackages`, every payload) and
then assigns `root_ = nullptr`.  Deallocation has no further functional
content, so the state change is exactly that the root becomes absent.  The
inherited package counter is NOT touched: `resetPackageCount()` (Base.h
line 99) is never called. -/
def clear (t : CAVLTree V) : CAVLTree V := { t with root := none }

/-!  Stack-usage accounting for the fixed 64-entry path arrays
(`PAVLNode nodeStack[64]; int dirStack[64]` in `insert`, lines 368-369,
and `PAVLNode up[64]; int upd[64]` in `erase`, lines 439-440).  Every
array write of either loop is `stack[top]` followed by `top++`, so the
writes of a call land exactly at indices `0 .. pushes - 1`, and every
read (`top - 1`, and the walk-back from `top - 1` down) stays at or below
the largest written index: the call stays inside the arrays exactly when
the number of pushes is at most 64. -/

/-- Number of stack pushes performed by the `insert` descent: one per
visited node (every visited node is pushed, including the one that
receives the new child). -/
def insertPushes [LinearOrder V] (r : SAVLNode V) (v : V) : Nat :=
  (insertDescend v r).length

/-- Number of nodes visited by the `insert` descent. -/
def insertVisited [LinearOrder V] (r : SAVLNode V) (v : V) : Nat :=
  (insertDescend v r).length

/-- Whether the `erase` search loop finds a matching node. -/
def eraseFound [LinearOrder V] (addr : Nat → Bool) (r : SAVLNode V) (v : V) : Bool :=
  (eraseFind addr v r 0).2.isSome

/-- Number of stack pushes performed by `erase`: the search loop pushes
every node it compares unequal; a found node is pushed only in the
two-children case, which also pushes every node of the successor chain
except the successor itself. -/
def erasePushes [LinearOrder V] (addr : Nat → Bool) (r : SAVLNode V) (v : V) : Nat :=
  match eraseFind addr v r 0 with
  | (p, none) => p.length
  | (p, some f) =>
      match f.nodes false, f.nodes true with
      | some _, some fc1 => p.length + 1 + (heirDescend fc1).1.length
      | _, _ => p.length

/-- Number of nodes visited by `erase`: the nodes examined by the search
loop (the found node included) plus, in the two-children case, the nodes
of the successor chain (the successor included). -/
def eraseVisited [LinearOrder V] (addr : Nat → Bool) (r : SAVLNode V) (v : V) : Nat :=
  match eraseFind addr v r 0 with
  | (p, none) => p.length
  | (p, some f) =>
      match f.nodes false, f.nodes true with
      | some _, some fc1 => p.length + 1 + ((heirDescend fc1).1.length + 1)
      | _, _ => p.length + 1

/-- The composition of single rotations that the specification describes
for `rotate_double(node, dir)`: first single-rotate the `!dir` child (so
that its inner grandchild comes up), then single-rotate the node itself;
in the conventions of the source's `rotateSingle`, the first step promotes
the grandchild `nodes[!dir]->nodes[dir]` within the `!dir` child and the
second step promotes the updated `!dir` child. -/
def SAVLNode.rotateDoubleComposed (t : SAVLNode V) (dir : Bool) : Option (SAVLNode V) :=
  match t.nodes !dir with
  | none => none
  | some m =>
      (m.rotateSingle !dir).bind fun m1 => (t.setN (!dir) (some m1)).rotateSingle dir

/-!  The AVL balance invariant (claim C2): every node's `balance` field
equals the height of its right subtree minus the height of its left
subtree and lies in [-1, 1]. -/

/-- The AVL balance invariant at a node and, recursively, below it. -/
def SAVLNode.balanced : SAVLNode V → Prop
  | .mk b c0 c1 _ _ =>
      b = (oheight c1 : Int) - (oheight c0 : Int) ∧ b.natAbs ≤ 1 ∧
      (match c0 with | none => True | some n => n.balanced) ∧
      (match c1 with | none => True | some n => n.balanced)

/-- The balance invariant of an optional subtree. -/
def obalanced : Option (SAVLNode V) → Prop
  | none => True
  | some n => n.balanced

@[simp] theorem obalanced_none : obalanced (V := V) none := trivial

@[simp] theorem obalanced_some (n : SAVLNode V) : obalanced (some n) ↔ n.balanced := Iff.rfl

@[simp] theorem SAVLNode.balanced_mk (b : Int) (c0 c1 : Option (SAVLNode V)) (d : V) (nb : Int) :
    (SAVLNode.mk b c0 c1 d nb).balanced ↔
      b = (oheight c1 : Int) - (oheight c0 : Int) ∧ b.natAbs ≤ 1 ∧
        obalanced c0 ∧ obalanced c1 := by
  cases c0 <;> cases c1 <;> exact Iff.rfl

theorem SAVLNode.height_pos (n : SAVLNode V) : 0 < n.height := by
  cases n; simp

theorem oheight_eq_zero {o : Option (SAVLNode V)} : oheight o = 0 ↔ o = none := by
  cases o with
  | none => simp
  | some n => simpa using Nat.pos_iff_ne_zero.mp n.height_pos

/-!  Path-stack bookkeeping for the walk-back proofs.  The recorded path is
handled deepest-first; `ChainUp rl h` states that each stacked node is
balanced and that its recorded-direction child has the height of the node
stacked just below it (`h` for the hole at the very bottom), and
`topH rl h` is the original height of the subtree rooted at the shallowest
stacked node. -/

/-- Balance/height facts along a (deepest-first) recorded path: the hole
at the bottom originally held a subtree of height `h`. -/
def ChainUp : List (SAVLNode V × Bool) → Nat → Prop
  | [], _ => True
  | (n, dir) :: rest, h => oheight (n.nodes dir) = h ∧ n.balanced ∧ ChainUp rest n.height

/-- Original height at the top of a (deepest-first) recorded path whose
bottom hole held a subtree of height `h`. -/
def topH : List (SAVLNode V × Bool) → Nat → Nat
  | [], h => h
  | (n, _) :: rest, _ => topH rest n.height

@[simp] theorem ChainUp_nil (h : Nat) : ChainUp (V := V) [] h := trivial

@[simp] theorem ChainUp_cons (n : SAVLNode V) (dir : Bool) (rest : List (SAVLNode V × Bool))
    (h : Nat) :
    ChainUp ((n, dir) :: rest) h ↔
      oheight (n.nodes dir) = h ∧ n.balanced ∧ ChainUp rest n.height := Iff.rfl

@[simp] theorem topH_nil (h : Nat) : topH (V := V) [] h = h := rfl

@[simp] theorem topH_cons (n : SAVLNode V) (dir : Bool) (rest : List (SAVLNode V × Bool))
    (h : Nat) : topH ((n, dir) :: rest) h = topH rest n.height := rfl

theorem ChainUp_append {l : List (SAVLNode V × Bool)} {h : Nat} {n : SAVLNode V} {dir : Bool}
    (hl : ChainUp l h) (hn : n.balanced) (hh : oheight (n.nodes dir) = topH l h) :
    ChainUp (l ++ [(n, dir)]) h := by
  induction l generalizing h with
  | nil => simpa using ⟨hh, hn⟩
  | cons e rest ih =>
      obtain ⟨p, d⟩ := e
      simp only [ChainUp_cons, topH_cons, List.cons_append] at hl hh ⊢
      exact ⟨hl.1, hl.2.1, ih hl.2.2 hh⟩

theorem topH_append (l : List (SAVLNode V × Bool)) (h : Nat) (n : SAVLNode V) (dir : Bool) :
    topH (l ++ [(n, dir)]) h = n.height := by
  induction l generalizing h with
  | nil => rfl
  | cons e rest ih => obtain ⟨p, d⟩ := e; simpa using ih p.height

/-- Plugging a subtree of unchanged height into the unprocessed part of the
path keeps every node balanced and the heights unchanged. -/
theorem reassemble_balanced (rl : List (SAVLNode V × Bool)) (h : Nat) (sub : SAVLNode V)
    (hc : ChainUp rl h) (hb : sub.balanced) (hh : sub.height = h) :
    (reassemble rl sub).balanced ∧ (reassemble rl sub).height = topH rl h := by
  induction rl generalizing h sub with
  | nil => simpa [reassemble] using ⟨hb, hh⟩
  | cons e rest ih =>
      obtain ⟨n, dir⟩ := e
      obtain ⟨b, c0, c1, d, nb⟩ := n
      simp only [ChainUp_cons, SAVLNode.balanced_mk] at hc
      obtain ⟨hhole, ⟨hbal, habs, h0, h1⟩, hrest⟩ := hc
      cases dir with
      | false =>
          simp only [SAVLNode.nodes_mk_false] at hhole
          refine ih _ (SAVLNode.mk b (some sub) c1 d nb) hrest ?_ ?_
          · simp only [SAVLNode.balanced_mk, obalanced_some]
            exact ⟨by rw [hbal]; simp [hh, hhole], habs, hb, h1⟩
          · simp [hh, hhole]
      | true =>
          simp only [SAVLNode.nodes_mk_true] at hhole
          refine ih _ (SAVLNode.mk b c0 (some sub) d nb) hrest ?_ ?_
          · simp only [SAVLNode.balanced_mk, obalanced_some]
            exact ⟨by rw [hbal]; simp [hh, hhole], habs, h0, hb⟩
          · simp [hh, hhole]

/-- After an insertion grew the `dir` subtree of a node out of balance,
`insertBalance` rotates the subtree back to a balanced one of the height
the node had before the insertion. -/
theorem SAVLNode.insertBalance_spec (n1 sub : SAVLNode V) (dir : Bool) (h : Nat)
    (hch : n1.nodes dir = some sub)
    (hoh : oheight (n1.nodes !dir) + 1 = h)
    (hob : obalanced (n1.nodes !dir))
    (hsb : sub.balanced)
    (hsh : sub.height = h + 1)
    (hsnz : sub.balance ≠ 0) :
    ∃ t, n1.insertBalance dir = some t ∧ t.balanced ∧ t.height = h + 1 := by
  obtain ⟨b, c0, c1, d, nb⟩ := n1
  obtain ⟨sb, s0, s1, sd, snb⟩ := sub
  rw [SAVLNode.balanced_mk] at hsb
  obtain ⟨hsbeq, hsabs, hs0, hs1⟩ := hsb
  simp only [SAVLNode.height_mk] at hsh
  simp only [SAVLNode.balance_mk] at hsnz
  cases dir with
  | true =>
      simp only [SAVLNode.nodes_mk_true] at hch
      subst hch
      simp only [Bool.not_true, SAVLNode.nodes_mk_false] at hoh hob
      rcases (by omega : sb = -1 ∨ sb = 0 ∨ sb = 1) with hsbv | hsbv | hsbv
      · -- balance -1 : the grown child leans inward, double rotation
        subst hsbv
        cases s0 with
        | none =>
            exfalso
            simp only [oheight_none] at hsbeq
            omega
        | some nn =>
            obtain ⟨nnb, nn0, nn1, nnd, nnnb⟩ := nn
            simp only [obalanced_some, SAVLNode.balanced_mk] at hs0
            obtain ⟨hnneq, hnnabs, hnn0, hnn1⟩ := hs0
            simp only [oheight_some, SAVLNode.height_mk] at hsbeq hsh
            rcases (by omega : nnb = -1 ∨ nnb = 0 ∨ nnb = 1) with hv | hv | hv <;>
              subst hv <;>
              simp only [SAVLNode.insertBalance, SAVLNode.nodes_mk_true,
                SAVLNode.nodes_mk_false, SAVLNode.balance_mk, SAVLNode.adjustBalance,
                SAVLNode.rotateDouble, SAVLNode.setBal_mk, SAVLNode.setN_mk_true,
                SAVLNode.setN_mk_false, Bool.not_true, Bool.not_false, Option.some_bind] <;>
              norm_num <;>
              (repeat' apply And.intro) <;>
              first | assumption | omega
      · omega
      · -- balance 1 : the grown child leans outward, single rotation
        subst hsbv
        simp only [SAVLNode.insertBalance, SAVLNode.nodes_mk_true, SAVLNode.nodes_mk_false,
          SAVLNode.balance_mk, SAVLNode.rotateSingle, SAVLNode.setBal_mk, SAVLNode.setN_mk_true,
          SAVLNode.setN_mk_false, SAVLNode.setNb_mk, SAVLNode.nodesbelow_mk,
          Bool.not_true, Bool.not_false]
        norm_num
        repeat' apply And.intro
        all_goals first | assumption | omega
  | false =>
      simp only [SAVLNode.nodes_mk_false] at hch
      subst hch
      simp only [Bool.not_false, SAVLNode.nodes_mk_true] at hoh hob
      rcases (by omega : sb = -1 ∨ sb = 0 ∨ sb = 1) with hsbv | hsbv | hsbv
      · -- balance -1 : the grown child leans outward, single rotation
        subst hsbv
        simp only [SAVLNode.insertBalance, SAVLNode.nodes_mk_true, SAVLNode.nodes_mk_false,
          SAVLNode.balance_mk, SAVLNode.rotateSingle, SAVLNode.setBal_mk, SAVLNode.setN_mk_true,
          SAVLNode.setN_mk_false, SAVLNode.setNb_mk, SAVLNode.nodesbelow_mk,
          Bool.not_true, Bool.not_false]
        norm_num
        repeat' apply And.intro
        all_goals first | assumption | omega
      · omega
      · -- balance 1 : the grown child leans inward, double rotation
        subst hsbv
        cases s1 with
        | none =>
            exfalso
            simp only [oheight_none] at hsbeq
            omega
        | some nn =>
            obtain ⟨nnb, nn0, nn1, nnd, nnnb⟩ := nn
            simp only [obalanced_some, SAVLNode.balanced_mk] at hs1
            obtain ⟨hnneq, hnnabs, hnn0, hnn1⟩ := hs1
            simp only [oheight_some, SAVLNode.height_mk] at hsbeq hsh
            rcases (by omega : nnb = -1 ∨ nnb = 0 ∨ nnb = 1) with hv | hv | hv <;>
              subst hv <;>
              simp only [SAVLNode.insertBalance, SAVLNode.nodes_mk_true,
                SAVLNode.nodes_mk_false, SAVLNode.balance_mk, SAVLNode.adjustBalance,
                SAVLNode.rotateDouble, SAVLNode.setBal_mk, SAVLNode.setN_mk_true,
                SAVLNode.setN_mk_false, Bool.not_true, Bool.not_false, Option.some_bind] <;>
              norm_num <;>
              (repeat' apply And.intro) <;>
              first | assumption | omega

/-- The insert walk-back keeps the tree balanced: carried up along a
balanced recorded path, a balanced subtree one taller than what the hole
held produces a balanced subtree of the original height or one more. -/
theorem walkBack_spec (rl : List (SAVLNode V × Bool)) :
    ∀ (h : Nat) (sub : SAVLNode V), ChainUp rl h → sub.balanced → sub.height = h + 1 →
      (sub.balance ≠ 0 ∨ h = 0) →
      ∃ t, walkBack rl sub = some t ∧ t.balanced ∧
        (t.height = topH rl h ∨ t.height = topH rl h + 1) := by
  induction rl with
  | nil =>
      intro h sub hc hb hh hnz
      exact ⟨sub, rfl, hb, Or.inr (by simpa using hh)⟩
  | cons e rest ih =>
      intro h sub hc hb hh hnz
      obtain ⟨n, dir⟩ := e
      obtain ⟨b, c0, c1, d, nb⟩ := n
      rw [ChainUp_cons] at hc
      obtain ⟨hch, hnb, hrest⟩ := hc
      rw [SAVLNode.balanced_mk] at hnb
      obtain ⟨hbeq, habs, h0, h1⟩ := hnb
      simp only [SAVLNode.height_mk] at hrest
      simp only [topH_cons, SAVLNode.height_mk]
      cases dir with
      | true =>
          simp only [SAVLNode.nodes_mk_true] at hch
          rcases (by omega : b = -1 ∨ b = 0 ∨ b = 1) with hbv | hbv | hbv <;> subst hbv
          · -- the short side grew, balance becomes 0: stop
            simp only [walkBack, SAVLNode.setN_mk_true, SAVLNode.balance_mk, SAVLNode.setBal_mk,
              SAVLNode.nodesbelow_mk, SAVLNode.setNb_mk]
            norm_num
            have hres := reassemble_balanced rest
                (1 + max (oheight c0) (oheight c1))
                (SAVLNode.mk 0 c0 (some sub) d (nb + 1)) hrest
                (by simp only [SAVLNode.balanced_mk, obalanced_some, oheight_some]
                    refine ⟨by omega, by omega, h0, hb⟩)
                (by simp only [SAVLNode.height_mk, oheight_some]; omega)
            exact ⟨hres.1, Or.inl hres.2⟩
          · -- the tree was even here, balance becomes 1: keep walking
            simp only [walkBack, SAVLNode.setN_mk_true, SAVLNode.balance_mk, SAVLNode.setBal_mk,
              SAVLNode.nodesbelow_mk, SAVLNode.setNb_mk]
            norm_num
            obtain ⟨t, ht, hbal, hdisj⟩ := ih (1 + max (oheight c0) (oheight c1))
                (SAVLNode.mk 1 c0 (some sub) d (nb + 1)) hrest
                (by simp only [SAVLNode.balanced_mk, obalanced_some, oheight_some]
                    refine ⟨by omega, by omega, h0, hb⟩)
                (by simp only [SAVLNode.height_mk, oheight_some]; omega)
                (Or.inl (by norm_num))
            exact ⟨t, ht, hbal, hdisj⟩
          · -- the tall side grew, balance reaches 2: rotate and stop
            have hsnz : sub.balance ≠ 0 := by
              rcases hnz with hz | hz
              · exact hz
              · exfalso; omega
            simp only [walkBack, SAVLNode.setN_mk_true, SAVLNode.balance_mk, SAVLNode.setBal_mk,
              SAVLNode.nodesbelow_mk, SAVLNode.setNb_mk]
            norm_num
            obtain ⟨t, ht, hbal, hht⟩ := SAVLNode.insertBalance_spec
                (SAVLNode.mk 2 c0 (some sub) d (nb + 1)) sub true h
                (by simp) (by simp only [Bool.not_true, SAVLNode.nodes_mk_false]; omega)
                (by simpa using h0) hb hh hsnz
            rw [ht]
            norm_num
            have hres := reassemble_balanced rest
                (1 + max (oheight c0) (oheight c1)) t hrest hbal (by omega)
            exact ⟨hres.1, Or.inl hres.2⟩
      | false =>
          simp only [SAVLNode.nodes_mk_false] at hch
          rcases (by omega : b = 1 ∨ b = 0 ∨ b = -1) with hbv | hbv | hbv <;> subst hbv
          · -- the short side grew, balance becomes 0: stop
            simp only [walkBack, SAVLNode.setN_mk_false, SAVLNode.balance_mk, SAVLNode.setBal_mk,
              SAVLNode.nodesbelow_mk, SAVLNode.setNb_mk]
            norm_num
            have hres := reassemble_balanced rest
                (1 + max (oheight c0) (oheight c1))
                (SAVLNode.mk 0 (some sub) c1 d (nb + 1)) hrest
                (by simp only [SAVLNode.balanced_mk, obalanced_some, oheight_some]
                    refine ⟨by omega, by omega, hb, h1⟩)
                (by simp only [SAVLNode.height_mk, oheight_some]; omega)
            exact ⟨hres.1, Or.inl hres.2⟩
          · -- the tree was even here, balance becomes -1: keep walking
            simp only [walkBack, SAVLNode.setN_mk_false, SAVLNode.balance_mk, SAVLNode.setBal_mk,
              SAVLNode.nodesbelow_mk, SAVLNode.setNb_mk]
            norm_num
            obtain ⟨t, ht, hbal, hdisj⟩ := ih (1 + max (oheight c0) (oheight c1))
                (SAVLNode.mk (-1) (some sub) c1 d (nb + 1)) hrest
                (by simp only [SAVLNode.balanced_mk, obalanced_some, oheight_some]
                    refine ⟨by omega, by omega, hb, h1⟩)
                (by simp only [SAVLNode.height_mk, oheight_some]; omega)
                (Or.inl (by norm_num))
            exact ⟨t, ht, hbal, hdisj⟩
          · -- the tall side grew, balance reaches -2: rotate and stop
            have hsnz : sub.balance ≠ 0 := by
              rcases hnz with hz | hz
              · exact hz
              · exfalso; omega
            simp only [walkBack, SAVLNode.setN_mk_false, SAVLNode.balance_mk, SAVLNode.setBal_mk,
              SAVLNode.nodesbelow_mk, SAVLNode.setNb_mk]
            norm_num
            obtain ⟨t, ht, hbal, hht⟩ := SAVLNode.insertBalance_spec
                (SAVLNode.mk (-2) (some sub) c1 d (nb + 1)) sub false h
                (by simp) (by simp only [Bool.not_false, SAVLNode.nodes_mk_true]; omega)
                (by simpa using h1) hb hh hsnz
            rw [ht]
            norm_num
            have hres := reassemble_balanced rest
                (1 + max (oheight c0) (oheight c1)) t hrest hbal (by omega)
            exact ⟨hres.1, Or.inl hres.2⟩

theorem SAVLNode.size_pos (n : SAVLNode V) : 0 < n.size := by
  cases n; simp

@[simp] theorem SAVLNode.nodes_setNb (n : SAVLNode V) (x : Int) (dir : Bool) :
    (n.setNb x).nodes dir = n.nodes dir := by
  cases n; cases dir <;> rfl

@[simp] theorem SAVLNode.balanced_setNb (n : SAVLNode V) (x : Int) :
    (n.setNb x).balanced ↔ n.balanced := by
  cases n; simp only [SAVLNode.setNb_mk, SAVLNode.balanced_mk]

@[simp] theorem SAVLNode.height_setNb (n : SAVLNode V) (x : Int) :
    (n.setNb x).height = n.height := by
  cases n; simp only [SAVLNode.setNb_mk, SAVLNode.height_mk]

/-- The recorded insertion path of a balanced tree is nonempty, forms a
balanced chain over a hole of height 0 (the null slot the new node goes
into), and reaches back up to the root's height. -/
theorem insertDescend_spec [LinearOrder V] (v : V) :
    ∀ (k : Nat) (r : SAVLNode V), r.size ≤ k → r.balanced →
      insertDescend v r ≠ [] ∧ ChainUp (insertDescend v r).reverse 0 ∧
        topH (insertDescend v r).reverse 0 = r.height := by
  intro k
  induction k with
  | zero =>
      intro r hsz _
      exact absurd hsz (by have := r.size_pos; omega)
  | succ k ih =>
      intro r hsz hb
      obtain ⟨b, c0, c1, d, nb⟩ := r
      rw [SAVLNode.balanced_mk] at hb
      obtain ⟨hbeq, habs, h0, h1⟩ := hb
      simp only [SAVLNode.size_mk] at hsz
      by_cases hdv : d < v
      · rw [insertDescend.eq_def]
        simp only [if_pos hdv]
        cases c1 with
        | none =>
            refine ⟨by simp, ?_, ?_⟩
            · simp only [List.reverse_cons, List.reverse_nil, List.nil_append, ChainUp_cons,
                SAVLNode.nodes_mk_true, oheight_none, ChainUp_nil]
              exact ⟨by simp, by simp only [SAVLNode.balanced_mk]; exact ⟨hbeq, habs, h0, trivial⟩,
                trivial⟩
            · simp
        | some c =>
            obtain ⟨hne, hchain, htop⟩ := ih c (by have h2 := osize_some (V := V) c; omega)
              (by simpa using h1)
            refine ⟨by simp, ?_, ?_⟩
            · simp only [List.reverse_cons]
              refine ChainUp_append hchain ?_ ?_
              · simp only [SAVLNode.balanced_mk]
                exact ⟨hbeq, habs, h0, h1⟩
              · simp [htop]
            · simp only [List.reverse_cons, topH_append]
      · rw [insertDescend.eq_def]
        simp only [if_neg hdv]
        cases c0 with
        | none =>
            refine ⟨by simp, ?_, ?_⟩
            · simp only [List.reverse_cons, List.reverse_nil, List.nil_append, ChainUp_cons,
                SAVLNode.nodes_mk_false, oheight_none, ChainUp_nil]
              exact ⟨by simp, by simp only [SAVLNode.balanced_mk]; exact ⟨hbeq, habs, trivial, h1⟩,
                trivial⟩
            · simp
        | some c =>
            obtain ⟨hne, hchain, htop⟩ := ih c (by have h2 := osize_some (V := V) c; omega)
              (by simpa using h0)
            refine ⟨by simp, ?_, ?_⟩
            · simp only [List.reverse_cons]
              refine ChainUp_append hchain ?_ ?_
              · simp only [SAVLNode.balanced_mk]
                exact ⟨hbeq, habs, h0, h1⟩
              · simp [htop]
            · simp only [List.reverse_cons, topH_append]

/-- Source function `CAVLTree::insert` on a balanced tree always completes, returns true,
keeps the tree balanced, and increments the package count. -/
theorem insert_balanced [LinearOrder V] {t : CAVLTree V} (v : V)
    (hb : obalanced t.root) :
    ∃ r1, insert t v = some ({ t with
        root := some r1,
        lPackageCount := t.lPackageCount + 1 }, true) ∧ r1.balanced := by
  match ht : t.root with
  | none =>
      refine ⟨SAVLNode.newNode v, ?_, by simp [SAVLNode.newNode]⟩
      simp only [insert, ht]
  | some r =>
      rw [ht] at hb
      obtain ⟨hne, hchain, htop⟩ :=
        insertDescend_spec v r.size r (le_refl _) (obalanced_some r |>.mp hb)
      rcases hrev : (insertDescend v r).reverse with _ | ⟨⟨dp, dir⟩, rest⟩
      · exact absurd (by simpa using congrArg List.reverse hrev) hne
      · rw [hrev] at hchain
        rw [ChainUp_cons] at hchain
        obtain ⟨hhole, hdpb, hrest⟩ := hchain
        obtain ⟨t1, hwb, hbal, _⟩ := walkBack_spec
            ((dp.setNb (dp.nodesbelow + 1), dir) :: rest) 0 (SAVLNode.newNode v)
            (by rw [ChainUp_cons]
                exact ⟨by simpa using hhole, by simpa using hdpb, by simpa using hrest⟩)
            (by simp [SAVLNode.newNode])
            (by simp [SAVLNode.newNode])
            (Or.inr rfl)
        refine ⟨t1, ?_, hbal⟩
        simp only [insert, ht, hrev, hwb, Option.map_some']

/-- After a deletion shrank the `dir` subtree of a node out of balance,
`removeBalance` rotates the subtree into a balanced one; the `done` flag
is returned exactly when the subtree kept its original height (the
terminal "other child balanced" case), otherwise the height drops by
one. -/
theorem SAVLNode.removeBalance_spec (n1 n2 : SAVLNode V) (dir : Bool)
    (hch : n1.nodes (!dir) = some n2)
    (hsh : oheight (n1.nodes dir) + 2 = n2.height)
    (hb2 : n2.balanced)
    (hobd : obalanced (n1.nodes dir)) :
    ∃ t done, n1.removeBalance dir = some (t, done) ∧ t.balanced ∧
      ((done = true ∧ t.height = n2.height + 1) ∨ (done = false ∧ t.height = n2.height)) := by
  obtain ⟨b, c0, c1, d, nb⟩ := n1
  obtain ⟨b2, s0, s1, sd, snb⟩ := n2
  rw [SAVLNode.balanced_mk] at hb2
  obtain ⟨hbeq, habs, hs0, hs1⟩ := hb2
  cases dir with
  | true =>
      simp only [Bool.not_true, SAVLNode.nodes_mk_false] at hch
      subst hch
      simp only [SAVLNode.nodes_mk_true] at hsh hobd
      simp only [SAVLNode.height_mk] at hsh ⊢
      rcases (by omega : b2 = -1 ∨ b2 = 0 ∨ b2 = 1) with hbv | hbv | hbv <;> subst hbv
      · -- tall child leans outward: single rotation, height drops
        simp only [SAVLNode.removeBalance, SAVLNode.nodes_mk_false, SAVLNode.nodes_mk_true,
          SAVLNode.balance_mk, SAVLNode.rotateSingle, SAVLNode.setBal_mk, SAVLNode.setN_mk_true,
          SAVLNode.setN_mk_false, SAVLNode.setNb_mk, SAVLNode.nodesbelow_mk,
          Bool.not_true, Bool.not_false]
        norm_num
        repeat' apply And.intro
        all_goals first | assumption | omega
      · -- tall child even: terminal single rotation, height kept, done set
        simp only [SAVLNode.removeBalance, SAVLNode.nodes_mk_false, SAVLNode.nodes_mk_true,
          SAVLNode.balance_mk, SAVLNode.rotateSingle, SAVLNode.setBal_mk, SAVLNode.setN_mk_true,
          SAVLNode.setN_mk_false, SAVLNode.setNb_mk, SAVLNode.nodesbelow_mk,
          Bool.not_true, Bool.not_false]
        norm_num
        repeat' apply And.intro
        all_goals first | assumption | omega
      · -- tall child leans inward: double rotation, height drops
        cases s1 with
        | none =>
            exfalso
            simp only [oheight_none] at hbeq
            omega
        | some nn =>
            obtain ⟨nnb, nn0, nn1, nnd, nnnb⟩ := nn
            simp only [obalanced_some, SAVLNode.balanced_mk] at hs1
            obtain ⟨hnneq, hnnabs, hnn0, hnn1⟩ := hs1
            simp only [oheight_some, SAVLNode.height_mk] at hbeq hsh ⊢
            rcases (by omega : nnb = -1 ∨ nnb = 0 ∨ nnb = 1) with hv | hv | hv <;>
              subst hv <;>
              simp only [SAVLNode.removeBalance, SAVLNode.nodes_mk_true,
                SAVLNode.nodes_mk_false, SAVLNode.balance_mk, SAVLNode.adjustBalance,
                SAVLNode.rotateDouble, SAVLNode.setBal_mk, SAVLNode.setN_mk_true,
                SAVLNode.setN_mk_false, Bool.not_true, Bool.not_false, Option.some_bind,
                Option.map_some'] <;>
              norm_num <;>
              (repeat' apply And.intro) <;>
              first | assumption | omega
  | false =>
      simp only [Bool.not_false, SAVLNode.nodes_mk_true] at hch
      subst hch
      simp only [SAVLNode.nodes_mk_false] at hsh hobd
      simp only [SAVLNode.height_mk] at hsh ⊢
      rcases (by omega : b2 = 1 ∨ b2 = 0 ∨ b2 = -1) with hbv | hbv | hbv <;> subst hbv
      · -- tall child leans outward: single rotation, height drops
        simp only [SAVLNode.removeBalance, SAVLNode.nodes_mk_false, SAVLNode.nodes_mk_true,
          SAVLNode.balance_mk, SAVLNode.rotateSingle, SAVLNode.setBal_mk, SAVLNode.setN_mk_true,
          SAVLNode.setN_mk_false, SAVLNode.setNb_mk, SAVLNode.nodesbelow_mk,
          Bool.not_true, Bool.not_false]
        norm_num
        repeat' apply And.intro
        all_goals first | assumption | omega
      · -- tall child even: terminal single rotation, height kept, done set
        simp only [SAVLNode.removeBalance, SAVLNode.nodes_mk_false, SAVLNode.nodes_mk_true,
          SAVLNode.balance_mk, SAVLNode.rotateSingle, SAVLNode.setBal_mk, SAVLNode.setN_mk_true,
          SAVLNode.setN_mk_false, SAVLNode.setNb_mk, SAVLNode.nodesbelow_mk,
          Bool.not_true, Bool.not_false]
        norm_num
        repeat' apply And.intro
        all_goals first | assumption | omega
      · -- tall child leans inward: double rotation, height drops
        cases s0 with
        | none =>
            exfalso
            simp only [oheight_none] at hbeq
            omega
        | some nn =>
            obtain ⟨nnb, nn0, nn1, nnd, nnnb⟩ := nn
            simp only [obalanced_some, SAVLNode.balanced_mk] at hs0
            obtain ⟨hnneq, hnnabs, hnn0, hnn1⟩ := hs0
            simp only [oheight_some, SAVLNode.height_mk] at hbeq hsh ⊢
            rcases (by omega : nnb = -1 ∨ nnb = 0 ∨ nnb = 1) with hv | hv | hv <;>
              subst hv <;>
              simp only [SAVLNode.removeBalance, SAVLNode.nodes_mk_true,
                SAVLNode.nodes_mk_false, SAVLNode.balance_mk, SAVLNode.adjustBalance,
                SAVLNode.rotateDouble, SAVLNode.setBal_mk, SAVLNode.setN_mk_true,
                SAVLNode.setN_mk_false, Bool.not_true, Bool.not_false, Option.some_bind,
                Option.map_some'] <;>
              norm_num <;>
              (repeat' apply And.intro) <;>
              first | assumption | omega

@[simp] theorem SAVLNode.nodes_setData (n : SAVLNode V) (x : V) (dir : Bool) :
    (n.setData x).nodes dir = n.nodes dir := by
  cases n; cases dir <;> rfl

@[simp] theorem SAVLNode.balanced_setData (n : SAVLNode V) (x : V) :
    (n.setData x).balanced ↔ n.balanced := by
  cases n; simp only [SAVLNode.setData_mk, SAVLNode.balanced_mk]

@[simp] theorem SAVLNode.height_setData (n : SAVLNode V) (x : V) :
    (n.setData x).height = n.height := by
  cases n; simp only [SAVLNode.setData_mk, SAVLNode.height_mk]

theorem ChainUp_concat {l1 l2 : List (SAVLNode V × Bool)} {h : Nat}
    (h1 : ChainUp l1 h) (h2 : ChainUp l2 (topH l1 h)) : ChainUp (l1 ++ l2) h := by
  induction l1 generalizing h with
  | nil => simpa using h2
  | cons e rest ih =>
      obtain ⟨n, dir⟩ := e
      rw [ChainUp_cons] at h1
      exact ⟨h1.1, h1.2.1, ih h1.2.2 h2⟩

theorem topH_concat (l1 l2 : List (SAVLNode V × Bool)) (h : Nat) :
    topH (l1 ++ l2) h = topH l2 (topH l1 h) := by
  induction l1 generalizing h with
  | nil => rfl
  | cons e rest ih => obtain ⟨n, _⟩ := e; simpa using ih n.height

/-- The in-order-successor descent of a balanced subtree yields a balanced
chain of left steps down to the leftmost node, which has no left child. -/
theorem heirDescend_spec :
    ∀ (k : Nat) (r : SAVLNode V), r.size ≤ k → r.balanced →
      (heirDescend r).2.balanced ∧ (heirDescend r).2.nodes false = none ∧
        ChainUp (heirDescend r).1.reverse (heirDescend r).2.height ∧
        topH (heirDescend r).1.reverse (heirDescend r).2.height = r.height := by
  intro k
  induction k with
  | zero =>
      intro r hsz _
      exact absurd hsz (by have := r.size_pos; omega)
  | succ k ih =>
      intro r hsz hb
      obtain ⟨b, c0, c1, d, nb⟩ := r
      rw [SAVLNode.balanced_mk] at hb
      obtain ⟨hbeq, habs, h0, h1⟩ := hb
      simp only [SAVLNode.size_mk] at hsz
      cases c0 with
      | none =>
          rw [heirDescend.eq_def]
          refine ⟨?_, rfl, trivial, rfl⟩
          simp only [SAVLNode.balanced_mk]
          exact ⟨hbeq, habs, trivial, h1⟩
      | some l =>
          obtain ⟨hlb, hlnone, hchain, htop⟩ := ih l (by have h2 := osize_some (V := V) l; omega)
            (by simpa using h0)
          rw [heirDescend.eq_def]
          simp only [List.reverse_cons]
          refine ⟨hlb, hlnone, ?_, ?_⟩
          · refine ChainUp_append hchain ?_ (by simpa using htop.symm)
            simp only [SAVLNode.balanced_mk]
            exact ⟨hbeq, habs, h0, h1⟩
          · simp only [topH_append, SAVLNode.height_mk]

/-- A found node of the erase search sits under a balanced recorded chain
reaching back up to the root's height. -/
theorem eraseFind_spec [LinearOrder V] (addr : Nat → Bool) (v : V) :
    ∀ (kk : Nat) (r : SAVLNode V) (k : Nat), r.size ≤ kk → r.balanced →
      ∀ p f, eraseFind addr v r k = (p, some f) →
        f.balanced ∧ ChainUp p.reverse f.height ∧ topH p.reverse f.height = r.height := by
  intro kk
  induction kk with
  | zero =>
      intro r k hsz _
      exact absurd hsz (by have := r.size_pos; omega)
  | succ kk ih =>
      intro r k hsz hb p f heq
      obtain ⟨b, c0, c1, d, nb⟩ := r
      have hbmk := hb
      rw [SAVLNode.balanced_mk] at hbmk
      obtain ⟨hbeq, habs, h0, h1⟩ := hbmk
      simp only [SAVLNode.size_mk] at hsz
      rw [eraseFind.eq_def] at heq
      by_cases hdv : d = v
      · simp only [if_pos hdv] at heq
        injection heq with hp hf
        injection hf with hf
        subst hp
        subst hf
        exact ⟨hb, by simp, by simp⟩
      · simp only [if_neg hdv] at heq
        by_cases hak : addr k
        · simp only [if_pos hak] at heq
          cases c1 with
          | none =>
              have heq2 : ([(SAVLNode.mk b c0 none d nb, true)], (none : Option (SAVLNode V))) =
                  (p, some f) := heq
              injection heq2 with hp hf
              exact Option.noConfusion hf
          | some c =>
              have heq2 : ((SAVLNode.mk b c0 (some c) d nb, true) ::
                  (eraseFind addr v c (k + 1)).1, (eraseFind addr v c (k + 1)).2) =
                  (p, some f) := heq
              rcases hrec : eraseFind addr v c (k + 1) with ⟨p1, f1⟩
              rw [hrec] at heq2
              injection heq2 with hp hf
              subst hp
              subst hf
              obtain ⟨hfb, hchain, htop⟩ := ih c (k + 1)
                (by have h2 := osize_some (V := V) c; omega) (by simpa using h1) p1 f hrec
              refine ⟨hfb, ?_, ?_⟩
              · simp only [List.reverse_cons]
                exact ChainUp_append hchain
                  (by simp only [SAVLNode.balanced_mk]; exact ⟨hbeq, habs, h0, h1⟩)
                  (by simpa using htop.symm)
              · simp only [List.reverse_cons, topH_append]
        · simp only [if_neg hak] at heq
          cases c0 with
          | none =>
              have heq2 : ([(SAVLNode.mk b none c1 d nb, false)], (none : Option (SAVLNode V))) =
                  (p, some f) := heq
              injection heq2 with hp hf
              exact Option.noConfusion hf
          | some c =>
              have heq2 : ((SAVLNode.mk b (some c) c1 d nb, false) ::
                  (eraseFind addr v c (k + 1)).1, (eraseFind addr v c (k + 1)).2) =
                  (p, some f) := heq
              rcases hrec : eraseFind addr v c (k + 1) with ⟨p1, f1⟩
              rw [hrec] at heq2
              injection heq2 with hp hf
              subst hp
              subst hf
              obtain ⟨hfb, hchain, htop⟩ := ih c (k + 1)
                (by have h2 := osize_some (V := V) c; omega) (by simpa using h0) p1 f hrec
              refine ⟨hfb, ?_, ?_⟩
              · simp only [List.reverse_cons]
                exact ChainUp_append hchain
                  (by simp only [SAVLNode.balanced_mk]; exact ⟨hbeq, habs, h0, h1⟩)
                  (by simpa using htop.symm)
              · simp only [List.reverse_cons, topH_append]

/-- The erase walk-back keeps the tree balanced: carried up along a
balanced recorded path, a balanced optional subtree one shorter than what
the hole held produces a balanced subtree of the original height or one
less. -/
theorem eraseWalkBack_spec (rl : List (SAVLNode V × Bool)) :
    ∀ (h : Nat) (sub : Option (SAVLNode V)), ChainUp rl h → obalanced sub →
      oheight sub + 1 = h →
      ∃ s, eraseWalkBack rl sub = some s ∧ obalanced s ∧
        (oheight s = topH rl h ∨ oheight s + 1 = topH rl h) := by
  induction rl with
  | nil =>
      intro h sub hc hb hh
      exact ⟨sub, rfl, hb, Or.inr (by simpa using hh)⟩
  | cons e rest ih =>
      intro h sub hc hb hh
      obtain ⟨n, dir⟩ := e
      obtain ⟨b, c0, c1, d, nb⟩ := n
      rw [ChainUp_cons] at hc
      obtain ⟨hch, hnb, hrest⟩ := hc
      rw [SAVLNode.balanced_mk] at hnb
      obtain ⟨hbeq, habs, h0, h1⟩ := hnb
      simp only [SAVLNode.height_mk] at hrest
      simp only [topH_cons, SAVLNode.height_mk]
      cases dir with
      | true =>
          simp only [SAVLNode.nodes_mk_true] at hch
          rcases (by omega : b = 0 ∨ b = 1 ∨ b = -1) with hbv | hbv | hbv <;> subst hbv
          · -- even node, the removal tilts it: height unchanged, stop
            simp only [eraseWalkBack, SAVLNode.setN_mk_true, SAVLNode.balance_mk,
              SAVLNode.setBal_mk]
            norm_num
            have hres := reassemble_balanced rest
                (1 + max (oheight c0) (oheight c1))
                (SAVLNode.mk (0 + -1) c0 sub d nb) hrest
                (by simp only [SAVLNode.balanced_mk]
                    exact ⟨by omega, by omega, h0, hb⟩)
                (by simp only [SAVLNode.height_mk]; omega)
            exact ⟨hres.1, Or.inl hres.2⟩
          · -- the tall side shrank, balance reaches 0: keep walking
            simp only [eraseWalkBack, SAVLNode.setN_mk_true, SAVLNode.balance_mk,
              SAVLNode.setBal_mk]
            norm_num
            obtain ⟨s, hs, hob2, hdisj⟩ := ih (1 + max (oheight c0) (oheight c1))
                (some (SAVLNode.mk (1 + -1) c0 sub d nb)) hrest
                (by simp only [obalanced_some, SAVLNode.balanced_mk]
                    exact ⟨by omega, by omega, h0, hb⟩)
                (by simp only [oheight_some, SAVLNode.height_mk]; omega)
            exact ⟨s, hs, hob2, hdisj⟩
          · -- the short side shrank, balance reaches -2: rebalance
            cases c0 with
            | none =>
                exfalso
                simp only [oheight_none] at hbeq
                omega
            | some n2 =>
                obtain ⟨t, done, heq, hbal, hdisj2⟩ := SAVLNode.removeBalance_spec
                    (SAVLNode.mk (-2) (some n2) sub d nb) n2 true
                    (by simp)
                    (by simp only [SAVLNode.nodes_mk_true]; simp only [oheight_some] at hbeq; omega)
                    (by simpa using h0) hb
                simp only [oheight_some] at hbeq
                rcases hdisj2 with ⟨hdone, hht⟩ | ⟨hdone, hht⟩ <;> subst hdone
                · -- terminal rotation case: height kept, stop
                  simp only [eraseWalkBack, SAVLNode.setN_mk_true, SAVLNode.balance_mk,
                    SAVLNode.setBal_mk]
                  norm_num
                  rw [heq]
                  norm_num
                  have hres := reassemble_balanced rest
                      (1 + max (n2.height) (oheight c1)) t hrest hbal (by omega)
                  exact ⟨hres.1, Or.inl hres.2⟩
                · -- rotation shrank the subtree: keep walking
                  simp only [eraseWalkBack, SAVLNode.setN_mk_true, SAVLNode.balance_mk,
                    SAVLNode.setBal_mk]
                  norm_num
                  rw [heq]
                  norm_num
                  obtain ⟨s, hs, hob2, hdisj⟩ := ih (1 + max (n2.height) (oheight c1))
                      (some t) hrest (by simpa using hbal)
                      (by simp only [oheight_some]; omega)
                  exact ⟨s, hs, hob2, hdisj⟩
      | false =>
          simp only [SAVLNode.nodes_mk_false] at hch
          rcases (by omega : b = 0 ∨ b = -1 ∨ b = 1) with hbv | hbv | hbv <;> subst hbv
          · -- even node, the removal tilts it: height unchanged, stop
            simp only [eraseWalkBack, SAVLNode.setN_mk_false, SAVLNode.balance_mk,
              SAVLNode.setBal_mk]
            norm_num
            have hres := reassemble_balanced rest
                (1 + max (oheight c0) (oheight c1))
                (SAVLNode.mk (0 + 1) sub c1 d nb) hrest
                (by simp only [SAVLNode.balanced_mk]
                    exact ⟨by omega, by omega, hb, h1⟩)
                (by simp only [SAVLNode.height_mk]; omega)
            exact ⟨hres.1, Or.inl hres.2⟩
          · -- the tall side shrank, balance reaches 0: keep walking
            simp only [eraseWalkBack, SAVLNode.setN_mk_false, SAVLNode.balance_mk,
              SAVLNode.setBal_mk]
            norm_num
            obtain ⟨s, hs, hob2, hdisj⟩ := ih (1 + max (oheight c0) (oheight c1))
                (some (SAVLNode.mk (-1 + 1) sub c1 d nb)) hrest
                (by simp only [obalanced_some, SAVLNode.balanced_mk]
                    exact ⟨by omega, by omega, hb, h1⟩)
                (by simp only [oheight_some, SAVLNode.height_mk]; omega)
            exact ⟨s, hs, hob2, hdisj⟩
          · -- the short side shrank, balance reaches 2: rebalance
            cases c1 with
            | none =>
                exfalso
                simp only [oheight_none] at hbeq
                omega
            | some n2 =>
                obtain ⟨t, done, heq, hbal, hdisj2⟩ := SAVLNode.removeBalance_spec
                    (SAVLNode.mk 2 sub (some n2) d nb) n2 false
                    (by simp)
                    (by simp only [SAVLNode.nodes_mk_false]; simp only [oheight_some] at hbeq; omega)
                    (by simpa using h1) hb
                simp only [oheight_some] at hbeq
                rcases hdisj2 with ⟨hdone, hht⟩ | ⟨hdone, hht⟩ <;> subst hdone
                · -- terminal rotation case: height kept, stop
                  simp only [eraseWalkBack, SAVLNode.setN_mk_false, SAVLNode.balance_mk,
                    SAVLNode.setBal_mk]
                  norm_num
                  rw [heq]
                  norm_num
                  have hres := reassemble_balanced rest
                      (1 + max (oheight c0) (n2.height)) t hrest hbal (by omega)
                  exact ⟨hres.1, Or.inl hres.2⟩
                · -- rotation shrank the subtree: keep walking
                  simp only [eraseWalkBack, SAVLNode.setN_mk_false, SAVLNode.balance_mk,
                    SAVLNode.setBal_mk]
                  norm_num
                  rw [heq]
                  norm_num
                  obtain ⟨s, hs, hob2, hdisj⟩ := ih (1 + max (oheight c0) (n2.height))
                      (some t) hrest (by simpa using hbal)
                      (by simp only [oheight_some]; omega)
                  exact ⟨s, hs, hob2, hdisj⟩

theorem SAVLNode.balanced_child {n : SAVLNode V} (h : n.balanced) (dir : Bool) :
    obalanced (n.nodes dir) := by
  obtain ⟨b, c0, c1, d, nb⟩ := n
  rw [SAVLNode.balanced_mk] at h
  cases dir with
  | false => simpa using h.2.2.1
  | true => simpa using h.2.2.2

theorem SAVLNode.height_left_none {n : SAVLNode V} (h : n.nodes false = none) :
    oheight (n.nodes true) + 1 = n.height := by
  obtain ⟨b, c0, c1, d, nb⟩ := n
  simp only [SAVLNode.nodes_mk_false] at h
  subst h
  simp only [SAVLNode.nodes_mk_true, SAVLNode.height_mk, oheight_none]
  omega

/-- Source function `CAVLTree::erase` on a balanced tree keeps the tree balanced, whatever
outcome the pointer-comparison oracle produces. -/
theorem erase_balanced [LinearOrder V] (addr : Nat → Bool) {t t' : CAVLTree V} {v : V}
    {bl : Bool} (hb : obalanced t.root) (heq : erase addr t v = some (t', bl)) :
    obalanced t'.root := by
  rcases ht : t.root with _ | r
  · have hred : erase addr t v = some ({ t with lPackageCount := t.lPackageCount + 1 }, true) := by
      simp only [erase, ht]
    rw [hred] at heq
    injection heq with heq1
    injection heq1 with heq2 heq3
    subst heq2
    simp [ht]
  · rw [ht] at hb
    rcases hfind : eraseFind addr v r 0 with ⟨path, fopt⟩
    rcases fopt with _ | f
    · have hred : erase addr t v = some (t, false) := by
        simp only [erase, ht, hfind]
      rw [hred] at heq
      injection heq with heq1
      injection heq1 with heq2 heq3
      subst heq2
      exact ht ▸ hb
    · obtain ⟨hfb, hchain, htop⟩ := eraseFind_spec addr v r.size r 0 (le_refl _)
        (by simpa using hb) path f hfind
      obtain ⟨fb, f0, f1, fd, fnb⟩ := f
      have hfbmk := hfb
      rw [SAVLNode.balanced_mk] at hfbmk
      obtain ⟨hfeq, hfabs, hf0, hf1⟩ := hfbmk
      rcases hf0sh : f0 with _ | fc0
      · -- found node has no left child: replaced by its right child
        subst hf0sh
        obtain ⟨s, hs, hobs, _⟩ := eraseWalkBack_spec path.reverse
            (SAVLNode.mk fb none f1 fd fnb).height f1 hchain (by simpa using hf1)
            (by simpa using @SAVLNode.height_left_none V
                  (SAVLNode.mk fb none f1 fd fnb) (by simp))
        have hred : erase addr t v = (eraseWalkBack path.reverse f1).map
            (fun newRoot => ({ t with
              root := newRoot,
              lPackageCount := t.lPackageCount + 1 }, true)) := by
          simp only [erase, ht, hfind, SAVLNode.nodes_mk_false, SAVLNode.nodes_mk_true]
        rw [hs, Option.map_some'] at hred
        rw [hred] at heq
        injection heq with heq1
        injection heq1 with heq2 heq3
        subst heq2
        simpa using hobs
      · rcases hf1sh : f1 with _ | fc1
        · -- found node has no right child: replaced by its left child
          subst hf0sh
          subst hf1sh
          obtain ⟨s, hs, hobs, _⟩ := eraseWalkBack_spec path.reverse
              (SAVLNode.mk fb (some fc0) none fd fnb).height (some fc0) hchain
              (by simpa using hf0)
              (by simp only [oheight_some, SAVLNode.height_mk, oheight_none]
                  simp only [oheight_some, oheight_none] at hfeq
                  omega)
          have hred : erase addr t v = (eraseWalkBack path.reverse (some fc0)).map
              (fun newRoot => ({ t with
                root := newRoot,
                lPackageCount := t.lPackageCount + 1 }, true)) := by
            simp only [erase, ht, hfind, SAVLNode.nodes_mk_false, SAVLNode.nodes_mk_true]
          rw [hs, Option.map_some'] at hred
          rw [hred] at heq
          injection heq with heq1
          injection heq1 with heq2 heq3
          subst heq2
          simpa using hobs
        · -- two children: successor's payload moves up, successor unlinked
          subst hf0sh
          subst hf1sh
          rcases hhp : heirDescend fc1 with ⟨hpath, heir⟩
          have hh1 : obalanced (some fc1) := hf1
          obtain ⟨hheirb, hheirl, hhchain, hhtop⟩ := heirDescend_spec fc1.size fc1 (le_refl _)
            (by simpa using hh1)
          rw [hhp] at hheirb hheirl hhchain hhtop
          have hx : (SAVLNode.mk fb (some fc0) (some fc1) fd fnb).setData heir.data
              = SAVLNode.mk fb (some fc0) (some fc1) heir.data fnb := rfl
          have hchain2 : ChainUp
              ((path ++ (SAVLNode.mk fb (some fc0) (some fc1) heir.data fnb, true)
                :: hpath).reverse) heir.height := by
            rw [List.reverse_append, List.reverse_cons]
            refine ChainUp_concat (ChainUp_append hhchain ?_ ?_) ?_
            · simpa using hfb
            · simpa using hhtop.symm
            · rw [topH_append]
              have hth : (SAVLNode.mk fb (some fc0) (some fc1) heir.data fnb).height
                  = (SAVLNode.mk fb (some fc0) (some fc1) fd fnb).height := by
                simp only [SAVLNode.height_mk]
              rw [hth]
              exact hchain
          obtain ⟨s, hs, hobs, _⟩ := eraseWalkBack_spec
              ((path ++ (SAVLNode.mk fb (some fc0) (some fc1) heir.data fnb, true)
                :: hpath).reverse) heir.height (heir.nodes true) hchain2
              (heir.balanced_child hheirb true)
              (SAVLNode.height_left_none hheirl)
          have hred : erase addr t v =
              (eraseWalkBack ((path ++ (SAVLNode.mk fb (some fc0) (some fc1) heir.data fnb,
                  true) :: hpath).reverse) (heir.nodes true)).map
                (fun newRoot => ({ t with
                  root := newRoot,
                  lPackageCount := t.lPackageCount + 1 }, true)) := by
            simp only [erase, ht, hfind, SAVLNode.nodes_mk_false, SAVLNode.nodes_mk_true, hhp,
              SAVLNode.setData_mk]
          rw [hs, Option.map_some'] at hred
          rw [hred] at heq
          injection heq with heq1
          injection heq1 with heq2 heq3
          subst heq2
          simpa using hobs

/-- Trees reachable from a freshly constructed tree by any sequence of
`insert` and `erase` calls.  The erase step carries an arbitrary oracle
for the pointer comparisons of its search loop, so every run of the
source is covered; conditioning each step on a `some` result loses no
behaviour, since on the trees this relation reaches both operations are
proven total (`insert_balanced`, and `eraseWalkBack_spec` backing
`erase_balanced`). -/
inductive Reachable [LinearOrder V] : CAVLTree V → Prop where
  | new : ∀ od ad, Reachable (CAVLTree.new od ad)
  | insertStep : ∀ {t t' : CAVLTree V} {v : V} {b : Bool}, Reachable t →
      SCL.insert t v = some (t', b) → Reachable t'
  | eraseStep : ∀ {t t' : CAVLTree V} {v : V} {b : Bool} (addr : Nat → Bool), Reachable t →
      SCL.erase addr t v = some (t', b) → Reachable t'

/-- CLAIM C2 (confirmed).  AVL-balance invariant: for every tree reachable
from the empty tree by any sequence of `insert` and `erase` calls, every
node's `balance` field equals `height(child 1) - height(child 0)` and
lies in [-1, 1] (`obalanced` states exactly this for every node of the
root's subtree). -/
theorem C2_avl_balance_invariant [LinearOrder V] {t : CAVLTree V}
    (h : Reachable t) : obalanced t.root := by
  induction h with
  | new od ad => exact trivial
  | insertStep hr heq ih =>
      rename_i t1 t1' v b
      obtain ⟨r1, heqI, hbal⟩ := insert_balanced v ih
      rw [heqI] at heq
      injection heq with heq1
      injection heq1 with heq2 heq3
      subst heq2
      simpa using hbal
  | eraseStep addr hr heq ih => exact erase_balanced addr ih heq

/-- Witness for C2: the tree obtained by inserting 1 and then 2 into a
freshly constructed tree is reachable, so the theorem applies to it. -/
theorem C2_avl_balance_invariant_witness :
    obalanced (CAVLTree.mk (some (SAVLNode.mk 1 none (some (SAVLNode.mk 0 none none (2 : ℤ) 1))
      1 3)) 2 false false).root :=
  C2_avl_balance_invariant
    (@Reachable.eraseStep ℤ _
      (CAVLTree.mk (some (SAVLNode.mk 1 none (some (SAVLNode.mk 0 none none 2 1)) 1 3)) 2
        false false)
      _ 3 false (fun _ => false)
      (@Reachable.insertStep ℤ _
        (CAVLTree.mk (some (SAVLNode.mk 0 none none 1 1)) 1 false false) _ 2 true
        (@Reachable.insertStep ℤ _ (CAVLTree.new false false) _ 1 true
          (Reachable.new false false) rfl)
        rfl)
      rfl)

/-!  The subtree-size invariant of the data model (claims C1, C3, C5, C8):
every node's `_nodesbelow` counter equals 1 plus the counters of its
children (an absent child contributing 0), and the tree's package count
equals the root's counter. -/

/-- The subtree-size invariant at a node and, recursively, below it. -/
def SAVLNode.sizeOk : SAVLNode V → Prop
  | .mk _ c0 c1 _ nb =>
      nb = 1 + (osize c0 : Int) + (osize c1 : Int) ∧
      (match c0 with | none => True | some n => n.sizeOk) ∧
      (match c1 with | none => True | some n => n.sizeOk)

/-- The subtree-size invariant of an optional subtree. -/
def osizeOk : Option (SAVLNode V) → Prop
  | none => True
  | some n => n.sizeOk

@[simp] theorem osizeOk_none : osizeOk (V := V) none := trivial

@[simp] theorem osizeOk_some (n : SAVLNode V) : osizeOk (some n) ↔ n.sizeOk := Iff.rfl

@[simp] theorem SAVLNode.sizeOk_mk (b : Int) (c0 c1 : Option (SAVLNode V)) (d : V) (nb : Int) :
    (SAVLNode.mk b c0 c1 d nb).sizeOk ↔
      nb = 1 + (osize c0 : Int) + (osize c1 : Int) ∧ osizeOk c0 ∧ osizeOk c1 := by
  cases c0 <;> cases c1 <;> exact Iff.rfl

/-- The whole-tree subtree-size invariant: all counters correct and the
package count equal to the number of nodes. -/
def CAVLTree.sizeInv (t : CAVLTree V) : Prop :=
  osizeOk t.root ∧ t.lPackageCount = osize t.root

/-- A subtree with all `_nodesbelow` counters erased (set to 0); used to
compare rotation results up to the size counters. -/
def SAVLNode.stripNb : SAVLNode V → SAVLNode V
  | .mk b c0 c1 d _ =>
      .mk b (match c0 with | none => none | some n => some n.stripNb)
            (match c1 with | none => none | some n => some n.stripNb) d 0

/-- Mapping `stripNb` over an optional subtree. -/
def ostripNb : Option (SAVLNode V) → Option (SAVLNode V)
  | none => none
  | some n => some n.stripNb

@[simp] theorem ostripNb_none : ostripNb (V := V) none = none := rfl

@[simp] theorem ostripNb_some (n : SAVLNode V) : ostripNb (some n) = some n.stripNb := rfl

@[simp] theorem SAVLNode.stripNb_mk (b : Int) (c0 c1 : Option (SAVLNode V)) (d : V) (nb : Int) :
    (SAVLNode.mk b c0 c1 d nb).stripNb = .mk b (ostripNb c0) (ostripNb c1) d 0 := by
  cases c0 <;> cases c1 <;> rfl

/-- Every direction recorded by the insert descent is the comparison
result `(*(current->data)) < (*toInsert)` at the recorded node. -/
theorem insertDescend_dir [LinearOrder V] (v : V) :
    ∀ (k : Nat) (r : SAVLNode V), r.size ≤ k → ∀ n d, (n, d) ∈ insertDescend v r →
      d = decide (n.data < v) := by
  intro k
  induction k with
  | zero =>
      intro r hsz
      exact absurd hsz (by have := r.size_pos; omega)
  | succ k ih =>
      intro r hsz n d hmem
      obtain ⟨b, c0, c1, dd, nb⟩ := r
      simp only [SAVLNode.size_mk] at hsz
      rw [insertDescend.eq_def] at hmem
      by_cases hdv : dd < v
      · simp only [if_pos hdv] at hmem
        cases c1 with
        | none =>
            simp only [List.mem_singleton, Prod.mk.injEq] at hmem
            obtain ⟨hn, hd⟩ := hmem
            subst hn
            subst hd
            simp [hdv]
        | some c =>
            simp only [List.mem_cons, Prod.mk.injEq] at hmem
            rcases hmem with ⟨hn, hd⟩ | hmem
            · subst hn
              subst hd
              simp [hdv]
            · exact ih c (by have h2 := osize_some (V := V) c; omega) n d hmem
      · simp only [if_neg hdv] at hmem
        cases c0 with
        | none =>
            simp only [List.mem_singleton, Prod.mk.injEq] at hmem
            obtain ⟨hn, hd⟩ := hmem
            subst hn
            subst hd
            simp [hdv]
        | some c =>
            simp only [List.mem_cons, Prod.mk.injEq] at hmem
            rcases hmem with ⟨hn, hd⟩ | hmem
            · subst hn
              subst hd
              simp [hdv]
            · exact ih c (by have h2 := osize_some (V := V) c; omega) n d hmem

/-- A left spine of `n + 1` nodes holding the payloads `n + 1, n, ..., 2, 1`
top-down; the deepest node holds 1.  Used to exercise the erase descent at
depth 65. -/
def spine : Nat → SAVLNode Int
  | 0 => .mk 0 none none 1 1
  | n + 1 => .mk 0 (some (spine n)) none ((n : Int) + 2) 1

/-- CLAIM C1 (code bug).  The subtree-size invariant does NOT survive
insertions: inserting 1 and then 2 into a fresh tree (which does satisfy
the invariant after the first insert) leaves the root with
`_nodesbelow = 3` for a 2-node subtree — line 399 increments the parent's
counter and the walk-back of line 407 increments it a second time. -/
theorem C1_subtree_size_code_bug :
    insert (CAVLTree.new false false) (1 : Int) =
      some (CAVLTree.mk (some (.mk 0 none none 1 1)) 1 false false, true) ∧
    CAVLTree.sizeInv (CAVLTree.mk (some (SAVLNode.mk 0 none none (1 : Int) 1)) 1 false false) ∧
    insert (CAVLTree.mk (some (SAVLNode.mk 0 none none (1 : Int) 1)) 1 false false) 2 =
      some (CAVLTree.mk (some (.mk 1 none (some (.mk 0 none none 2 1)) 1 3)) 2 false false,
        true) ∧
    ¬ CAVLTree.sizeInv (CAVLTree.mk
        (some (SAVLNode.mk 1 none (some (.mk 0 none none (2 : Int) 1)) 1 3)) 2 false false) := by
  refine ⟨rfl, ?_, rfl, ?_⟩
  · refine ⟨?_, ?_⟩ <;> norm_num [osizeOk, SAVLNode.sizeOk, osize, SAVLNode.size]
  · intro hinv
    obtain ⟨hok, _⟩ := hinv
    rw [osizeOk_some, SAVLNode.sizeOk_mk] at hok
    obtain ⟨hroot, _⟩ := hok
    norm_num [osize, SAVLNode.size] at hroot

/-- CLAIM C3 (code bug).  Erasing the only payload of a valid one-node
tree does remove the node and return true, but `CAVLTree::erase` calls
`incPackageCount()` (AVLTree.cpp line 537), so the count goes from 1 to 2
instead of decrementing to 0. -/
theorem C3_erase_increments_count_code_bug :
    obalanced (CAVLTree.mk (some (SAVLNode.mk 0 none none (1 : Int) 1)) 1 false false).root ∧
    CAVLTree.sizeInv (CAVLTree.mk (some (SAVLNode.mk 0 none none (1 : Int) 1)) 1 false false) ∧
    erase (fun _ => false)
        (CAVLTree.mk (some (SAVLNode.mk 0 none none (1 : Int) 1)) 1 false false) 1 =
      some (CAVLTree.mk none 2 false false, true) := by
  refine ⟨?_, ?_, rfl⟩
  · norm_num [obalanced, SAVLNode.balanced, oheight]
  · refine ⟨?_, ?_⟩ <;> norm_num [osizeOk, SAVLNode.sizeOk, osize, SAVLNode.size]

/-- CLAIM C4 (code bug).  Erasing from the EMPTY tree skips the whole
`if (root_)` block, yet still runs `incPackageCount()` and returns TRUE
(AVLTree.cpp lines 443, 537-538); doing it twice returns true twice and
pushes the count to 2 — the claim demands false with the tree unchanged
both times. -/
theorem C4_erase_empty_code_bug :
    erase (fun _ => false) (CAVLTree.new false false) (5 : Int) =
      some (CAVLTree.mk none 1 false false, true) ∧
    erase (fun _ => false) (CAVLTree.mk (none : Option (SAVLNode Int)) 1 false false) 5 =
      some (CAVLTree.mk none 2 false false, true) := ⟨rfl, rfl⟩

/-- CLAIM C5 (code bug).  On the balanced, size-correct tree
`{1, 2, 3}`, ranks 0 and 1 are answered correctly and rank 3 raises the
out-of-bounds error, but rank 2 — the first rank that needs a rightward
step — runs `current = current->nodes[1]; current++;` (AVLTree.cpp lines
301-302), pointer arithmetic followed by reads through the moved pointer:
undefined behaviour instead of the payload 3. -/
theorem C5_opIndex_pointer_increment_code_bug :
    obalanced (CAVLTree.mk (some (SAVLNode.mk 0 (some (.mk 0 none none 1 1))
      (some (.mk 0 none none 3 1)) (2 : Int) 3)) 3 false false).root ∧
    CAVLTree.sizeInv (CAVLTree.mk (some (SAVLNode.mk 0 (some (.mk 0 none none 1 1))
      (some (.mk 0 none none 3 1)) (2 : Int) 3)) 3 false false) ∧
    opIndex (CAVLTree.mk (some (SAVLNode.mk 0 (some (.mk 0 none none 1 1))
      (some (.mk 0 none none 3 1)) (2 : Int) 3)) 3 false false) 0 =
      AtOutcome.result (some 1) ∧
    opIndex (CAVLTree.mk (some (SAVLNode.mk 0 (some (.mk 0 none none 1 1))
      (some (.mk 0 none none 3 1)) (2 : Int) 3)) 3 false false) 1 =
      AtOutcome.result (some 2) ∧
    opIndex (CAVLTree.mk (some (SAVLNode.mk 0 (some (.mk 0 none none 1 1))
      (some (.mk 0 none none 3 1)) (2 : Int) 3)) 3 false false) 2 =
      AtOutcome.undefined ∧
    opIndex (CAVLTree.mk (some (SAVLNode.mk 0 (some (.mk 0 none none 1 1))
      (some (.mk 0 none none 3 1)) (2 : Int) 3)) 3 false false) 3 =
      AtOutcome.outOfBounds := by
  refine ⟨?_, ?_, rfl, rfl, rfl, rfl⟩
  · norm_num [obalanced, SAVLNode.balanced, oheight, SAVLNode.height]
  · refine ⟨?_, ?_⟩ <;> norm_num [osizeOk, SAVLNode.sizeOk, osize, SAVLNode.size]

/-- CLAIM C6 (code bug).  `CAVLTree::clear` frees every node and nulls the
root, but never touches the inherited package counter
(`resetPackageCount()`, Base.h line 99, is not called): after inserting
one element and clearing, `size()` still reports 1, not 0, so a
subsequent insert does not behave as on a freshly constructed tree. -/
theorem C6_clear_keeps_count_code_bug :
    insert (CAVLTree.new false false) (1 : Int) =
      some (CAVLTree.mk (some (.mk 0 none none 1 1)) 1 false false, true) ∧
    clear (CAVLTree.mk (some (SAVLNode.mk 0 none none (1 : Int) 1)) 1 false false) =
      CAVLTree.mk none 1 false false ∧
    (CAVLTree.mk (none : Option (SAVLNode Int)) 1 false false).lPackageCount ≠ 0 :=
  ⟨rfl, rfl, by decide⟩

/-- Counterexample to CLAIM C7 as stated: the insert descent computes
`dir = (*(current->data)) < (*toInsert)` (AVLTree.cpp line 384), which is
FALSE when the values are equal, so inserting 5 into a tree already
holding 5 (duplicates allowed) attaches the new node on the dir = 0 side:
afterwards the root's `nodes[1]` is null and `nodes[0]` holds the
duplicate. -/
theorem C7_duplicate_side_counterexample :
    (insert (CAVLTree.new false true) (5 : Int)).bind (fun p => insert p.1 5) =
      some (CAVLTree.mk (some (.mk (-1) (some (.mk 0 none none 5 1)) none 5 3)) 2 false true,
        true) ∧
    (SAVLNode.mk (-1) (some (SAVLNode.mk 0 none none (5 : Int) 1)) none 5 3).nodes true =
      none ∧
    (SAVLNode.mk (-1) (some (SAVLNode.mk 0 none none (5 : Int) 1)) none 5 3).nodes false =
      some (.mk 0 none none 5 1) := ⟨rfl, rfl, rfl⟩

/-- CLAIM C7 (corrected).  On every tree satisfying the balance invariant
`insert(value)` completes, returns true and increments the count by 1;
but at each EQUAL comparison the descent takes the dir = 0 side (the
comparison made is existing < new), not the dir = 1 side, so duplicates
are attached in the left subtree. -/
theorem C7_duplicate_side_amended [LinearOrder V] {t : CAVLTree V} (v : V)
    (hb : obalanced t.root) :
    (∃ r1, insert t v = some ({ t with
        root := some r1,
        lPackageCount := t.lPackageCount + 1 }, true)) ∧
    (∀ r n d, t.root = some r → (n, d) ∈ insertDescend v r → ¬n.data < v → d = false) := by
  constructor
  · obtain ⟨r1, heq, _⟩ := insert_balanced v hb
    exact ⟨r1, heq⟩
  · intro r n d hr hmem hlt
    rw [insertDescend_dir v r.size r (le_refl _) n d hmem]
    simpa using hlt

/-- Witness for C7: the amended statement applied to the empty tree with
duplicates enabled and the value 5. -/
theorem C7_duplicate_side_witness :
    (∃ r1, insert (CAVLTree.new false true : CAVLTree Int) 5 =
      some ({ (CAVLTree.new false true : CAVLTree Int) with
        root := some r1,
        lPackageCount := (CAVLTree.new false true : CAVLTree Int).lPackageCount + 1 }, true)) ∧
    (∀ r n d, (CAVLTree.new false true : CAVLTree Int).root = some r →
      (n, d) ∈ insertDescend 5 r → ¬n.data < 5 → d = false) :=
  C7_duplicate_side_amended 5 trivial

/-- CLAIM C8 (code bug).  `rotateSingle` does return the former `!dir`
child and leaves balance fields alone, but its `_nodesbelow` updates do
not implement the invariant formula: rotating the size-correct 2-node
subtree `{2 with left child 1}` through dir = 1 produces a root whose
counter is 1 although its subtree holds 2 nodes (the update forgets the
rotated node itself, and in general also the migrated grandchild). -/
theorem C8_rotate_single_size_code_bug :
    SAVLNode.sizeOk (SAVLNode.mk 0 (some (SAVLNode.mk 0 none none (1 : Int) 1)) none 2 2) ∧
    SAVLNode.rotateSingle (SAVLNode.mk 0 (some (SAVLNode.mk 0 none none (1 : Int) 1)) none 2 2)
        true =
      some (SAVLNode.mk 0 none (some (SAVLNode.mk 0 none none 2 1)) 1 1) ∧
    ¬ SAVLNode.sizeOk (SAVLNode.mk 0 none (some (SAVLNode.mk 0 none none (2 : Int) 1)) 1 1) := by
  refine ⟨?_, rfl, ?_⟩
  · norm_num [SAVLNode.sizeOk, osize, SAVLNode.size]
  · intro hok
    rw [SAVLNode.sizeOk_mk] at hok
    obtain ⟨hroot, _⟩ := hok
    norm_num [osize, SAVLNode.size] at hroot

/-- Counterexample to CLAIM C9 as stated: on the size-correct 3-node
zig-zag `{3 with left child 1, whose right child is 2}`, `rotateDouble`
and the composition of the two single rotations produce subtrees that are
NOT equal — the shapes agree but the `_nodesbelow` fields differ, because
`rotateDouble` performs its relinking inline without any size updates. -/
theorem C9_double_rotation_counterexample :
    SAVLNode.rotateDouble
        (SAVLNode.mk 0 (some (SAVLNode.mk 0 none (some (SAVLNode.mk 0 none none (2 : Int) 1))
          1 2)) none 3 3) true =
      some (SAVLNode.mk 0 (some (SAVLNode.mk 0 none none 1 2))
        (some (SAVLNode.mk 0 none none 3 3)) 2 1) ∧
    SAVLNode.rotateDoubleComposed
        (SAVLNode.mk 0 (some (SAVLNode.mk 0 none (some (SAVLNode.mk 0 none none (2 : Int) 1))
          1 2)) none 3 3) true =
      some (SAVLNode.mk 0 (some (SAVLNode.mk 0 none none 1 1))
        (some (SAVLNode.mk 0 none none 3 2)) 2 1) ∧
    (SAVLNode.mk 0 (some (SAVLNode.mk 0 none none (1 : Int) 2))
        (some (SAVLNode.mk 0 none none 3 3)) 2 1) ≠
      (SAVLNode.mk 0 (some (SAVLNode.mk 0 none none (1 : Int) 1))
        (some (SAVLNode.mk 0 none none 3 2)) 2 1) := by
  refine ⟨rfl, rfl, ?_⟩
  intro h
  injection h with e1 e2 e3 e4 e5
  injection e2 with e2
  injection e2 with g1 g2 g3 g4 g5
  exact absurd g5 (by decide)

/-- CLAIM C9 (corrected).  Whenever the required grandchild exists,
`rotateDouble(dir)` produces the same subtree as the composition of the
two single rotations UP TO the `_nodesbelow` counters: the shapes,
payloads and balance fields agree, but `rotateDouble` leaves every moved
node's counter exactly as it was (the composition recomputes — itself
incorrectly, see C8 — the counters of the two rotated-through nodes). -/
theorem C9_double_rotation_amended (t m s : SAVLNode V) (dir : Bool)
    (h1 : t.nodes (!dir) = some m) (h2 : m.nodes dir = some s) :
    ∃ r1 r2, t.rotateDouble dir = some r1 ∧ t.rotateDoubleComposed dir = some r2 ∧
      r1.stripNb = r2.stripNb ∧
      r1.nodesbelow = s.nodesbelow ∧ r1.balance = s.balance ∧ r1.data = s.data ∧
      (∃ l, r1.nodes (!dir) = some l ∧ l.nodesbelow = m.nodesbelow ∧ l.data = m.data ∧
        l.balance = m.balance) ∧
      (∃ g, r1.nodes dir = some g ∧ g.nodesbelow = t.nodesbelow ∧ g.data = t.data ∧
        g.balance = t.balance) := by
  obtain ⟨tb, t0, t1c, td, tnb⟩ := t
  obtain ⟨mb, m0, m1, md, mnb⟩ := m
  obtain ⟨sb, s0, s1, sd, snb⟩ := s
  cases dir with
  | true =>
      simp only [Bool.not_true, SAVLNode.nodes_mk_false] at h1
      subst h1
      simp only [SAVLNode.nodes_mk_true] at h2
      subst h2
      simp only [SAVLNode.rotateDouble, SAVLNode.rotateDoubleComposed, SAVLNode.rotateSingle,
        SAVLNode.nodes_mk_true, SAVLNode.nodes_mk_false, SAVLNode.setN_mk_true,
        SAVLNode.setN_mk_false, SAVLNode.setNb_mk, SAVLNode.nodesbelow_mk, Bool.not_true,
        Bool.not_false, Option.some_bind]
      refine ⟨_, _, rfl, rfl, ?_, rfl, rfl, rfl, ⟨_, rfl, rfl, rfl, rfl⟩, ⟨_, rfl, rfl, rfl, rfl⟩⟩
      simp only [SAVLNode.stripNb_mk, ostripNb_some, ostripNb_none]
  | false =>
      simp only [Bool.not_false, SAVLNode.nodes_mk_true] at h1
      subst h1
      simp only [SAVLNode.nodes_mk_false] at h2
      subst h2
      simp only [SAVLNode.rotateDouble, SAVLNode.rotateDoubleComposed, SAVLNode.rotateSingle,
        SAVLNode.nodes_mk_true, SAVLNode.nodes_mk_false, SAVLNode.setN_mk_true,
        SAVLNode.setN_mk_false, SAVLNode.setNb_mk, SAVLNode.nodesbelow_mk, Bool.not_true,
        Bool.not_false, Option.some_bind]
      refine ⟨_, _, rfl, rfl, ?_, rfl, rfl, rfl, ⟨_, rfl, rfl, rfl, rfl⟩, ⟨_, rfl, rfl, rfl, rfl⟩⟩
      simp only [SAVLNode.stripNb_mk, ostripNb_some, ostripNb_none]

/-- Witness for C9: the amended statement applied to the 3-node zig-zag
of the counterexample. -/
theorem C9_double_rotation_witness :
    ∃ r1 r2, SAVLNode.rotateDouble
        (SAVLNode.mk 0 (some (SAVLNode.mk 0 none (some (SAVLNode.mk 0 none none (2 : Int) 1))
          1 2)) none 3 3) true = some r1 ∧
      SAVLNode.rotateDoubleComposed
        (SAVLNode.mk 0 (some (SAVLNode.mk 0 none (some (SAVLNode.mk 0 none none (2 : Int) 1))
          1 2)) none 3 3) true = some r2 ∧
      r1.stripNb = r2.stripNb ∧
      r1.nodesbelow = (SAVLNode.mk 0 none none (2 : Int) 1).nodesbelow ∧
      r1.balance = (SAVLNode.mk 0 none none (2 : Int) 1).balance ∧
      r1.data = (SAVLNode.mk 0 none none (2 : Int) 1).data ∧
      (∃ l, r1.nodes (!true) = some l ∧
        l.nodesbelow = (SAVLNode.mk 0 none (some (SAVLNode.mk 0 none none (2 : Int) 1))
          1 2).nodesbelow ∧
        l.data = (SAVLNode.mk 0 none (some (SAVLNode.mk 0 none none (2 : Int) 1)) 1 2).data ∧
        l.balance = (SAVLNode.mk 0 none (some (SAVLNode.mk 0 none none (2 : Int) 1))
          1 2).balance) ∧
      (∃ g, r1.nodes true = some g ∧
        g.nodesbelow = (SAVLNode.mk 0 (some (SAVLNode.mk 0 none
          (some (SAVLNode.mk 0 none none (2 : Int) 1)) 1 2)) none 3 3).nodesbelow ∧
        g.data = (SAVLNode.mk 0 (some (SAVLNode.mk 0 none
          (some (SAVLNode.mk 0 none none (2 : Int) 1)) 1 2)) none 3 3).data ∧
        g.balance = (SAVLNode.mk 0 (some (SAVLNode.mk 0 none
          (some (SAVLNode.mk 0 none none (2 : Int) 1)) 1 2)) none 3 3).balance) :=
  C9_double_rotation_amended
    (SAVLNode.mk 0 (some (SAVLNode.mk 0 none (some (SAVLNode.mk 0 none none (2 : Int) 1))
      1 2)) none 3 3)
    (SAVLNode.mk 0 none (some (SAVLNode.mk 0 none none (2 : Int) 1)) 1 2)
    (SAVLNode.mk 0 none none (2 : Int) 1) true rfl rfl

/-- Counterexample to CLAIM C10 as stated: erasing the value 1 from a
65-node left spine (pointer-comparison oracle descending left) visits 65
nodes — more than 64 — yet performs only 64 pushes, so every array
access stays within the 64-entry stacks: a descent longer than 64 nodes
does NOT necessarily write outside the arrays for `erase`. -/
theorem C10_stack_bounds_counterexample :
    eraseVisited (fun _ => false) (spine 64) 1 = 65 ∧
    erasePushes (fun _ => false) (spine 64) 1 = 64 ∧
    ¬ 64 < erasePushes (fun _ => false) (spine 64) 1 := by
  refine ⟨rfl, rfl, by decide⟩

/-- CLAIM C10 (corrected).  Both loops write each stack entry at index
`top` and then increment `top`, so all array accesses stay within the
64-entry arrays exactly when at most 64 entries are pushed.  `insert`
pushes one entry per visited node, so a descent of more than 64 nodes
writes outside the arrays; `erase` pushes one entry per visited node
EXCEPT the found node (pushed only in the two-children case, in which the
successor is also visited but never pushed), so when the value is found
it stays within bounds up to 65 visited nodes. -/
theorem C10_stack_bounds_amended [LinearOrder V] (addr : Nat → Bool) (r : SAVLNode V)
    (v : V) :
    insertPushes r v = insertVisited r v ∧
    (insertVisited r v ≤ 64 → insertPushes r v ≤ 64) ∧
    (64 < insertVisited r v → 64 < insertPushes r v) ∧
    erasePushes addr r v + (if eraseFound addr r v then 1 else 0) = eraseVisited addr r v ∧
    (eraseVisited addr r v ≤ 64 → erasePushes addr r v ≤ 64) := by
  have h1 : insertPushes r v = insertVisited r v := rfl
  have h2 : erasePushes addr r v + (if eraseFound addr r v then 1 else 0)
      = eraseVisited addr r v := by
    unfold erasePushes eraseVisited eraseFound
    rcases eraseFind addr v r 0 with ⟨p, fopt⟩
    cases fopt with
    | none => simp
    | some f =>
        obtain ⟨fb, f0, f1, fd, fnb⟩ := f
        cases f0 <;> cases f1 <;> simp <;> omega
  exact ⟨h1, fun h => h1 ▸ h, fun h => h1 ▸ h, h2, fun h => by omega⟩

/-- Witness for C10: the amended statement applied to a one-node tree. -/
theorem C10_stack_bounds_witness :
    insertPushes (SAVLNode.mk 0 none none (1 : Int) 1) 1 ≤ 64 ∧
    erasePushes (fun _ => false) (SAVLNode.mk 0 none none (1 : Int) 1) 1 ≤ 64 :=
  ⟨(C10_stack_bounds_amended (fun _ => false) (SAVLNode.mk 0 none none (1 : Int) 1) 1).2.1
      (by decide),
   (C10_stack_bounds_amended (fun _ => false) (SAVLNode.mk 0 none none (1 : Int) 1) 1).2.2.2.2
      (by decide)⟩

end SCL
